import Mathlib

/-!
Verification of the winptables NDIS filter driver against its
natural-language specification.

Definitions under the `Winptables` namespace are a shallow embedding of
`src/winptables/winptables.c`.  Components of the repository that are
declared and called from that file but whose implementation files are
not in `src` (the ring-buffer transport, the packet pipeline, the rule
engine and the filter-module registry) are modelled from the
specification; each such definition's doc comment starts with
`Modelled from the spec:` and names the missing piece.
-/

namespace Winptables

/-! ## Rule engine (specified in section 4.2; implementation not in src) -/

/-- Modelled from the spec: the rule actions of the Rule Engine,
`action ∈ {ACCEPT, DROP, MIRROR}` (data model, section 3).  The rule
engine implementation file is not in `src`. -/
inductive Action where
  | ACCEPT
  | DROP
  | MIRROR
deriving DecidableEq, Repr

/-- Modelled from the spec: packet flow direction. -/
inductive Direction where
  | inbound
  | outbound
deriving DecidableEq, Repr

/-- Modelled from the spec: the packet attributes a rule predicate may
inspect (direction, addresses, ports, protocol, adapter), plus a
well-formedness flag feeding the `MalformedInput` path of section 4.3. -/
structure Packet where
  direction : Direction
  srcAddr : Nat
  dstAddr : Nat
  srcPort : Nat
  dstPort : Nat
  protocol : Nat
  adapter : Nat
  wellFormed : Bool
deriving DecidableEq, Repr

/-- Modelled from the spec: a match expression over packet attributes;
a field set to `none` places no constraint on that attribute. -/
structure MatchExpr where
  direction : Option Direction := none
  srcAddr : Option Nat := none
  dstAddr : Option Nat := none
  srcPort : Option Nat := none
  dstPort : Option Nat := none
  protocol : Option Nat := none
  adapter : Option Nat := none
deriving DecidableEq, Repr

/-- One attribute constraint: `none` matches everything. -/
def matchField [DecidableEq α] (pat : Option α) (v : α) : Bool :=
  match pat with
  | none => true
  | some x => decide (x = v)

/-- Modelled from the spec: whether a rule's match expression matches a
packet (conjunction of its attribute constraints). -/
def MatchExpr.matchesPacket (m : MatchExpr) (p : Packet) : Bool :=
  matchField m.direction p.direction &&
  matchField m.srcAddr p.srcAddr &&
  matchField m.dstAddr p.dstAddr &&
  matchField m.srcPort p.srcPort &&
  matchField m.dstPort p.dstPort &&
  matchField m.protocol p.protocol &&
  matchField m.adapter p.adapter

/-- Modelled from the spec: `Rule = {match expression, action}`. -/
structure Rule where
  expr : MatchExpr
  action : Action
deriving DecidableEq, Repr

/-- Modelled from the spec: a RuleSet is an ordered sequence of rules
plus a configured default action. -/
structure RuleSet where
  rules : List Rule
  defaultAction : Action
deriving DecidableEq, Repr

/-- Modelled from the spec: the configured default action defaults to
ACCEPT (fail-open, section 4.2). -/
def defaultRuleAction : Action := Action.ACCEPT

/-- A RuleSet with the default configuration of the default action. -/
def mkRuleSet (rs : List Rule) : RuleSet :=
  { rules := rs, defaultAction := defaultRuleAction }

/-- Modelled from the spec: the linear ordered scan of the Rule Engine;
returns the action of the first rule whose expression matches, `none`
when no rule matches. -/
def scanRules : List Rule → Packet → Option Action
  | [], _ => none
  | r :: rest, p =>
    if r.expr.matchesPacket p then some r.action else scanRules rest p

/-- Modelled from the spec: classification — first matching rule wins;
if no rule matches, the configured default action applies. -/
def classify (rs : RuleSet) (p : Packet) : Action :=
  match scanRules rs.rules p with
  | some a => a
  | none => rs.defaultAction

/-! ## DriverEntry (src/winptables/winptables.c, lines 73-201) -/

/-- `NDIS_RUNTIME_VERSION_620`: NDIS version 6.20 packed as
`(major <<< 16) ||| minor` (ndis.h). -/
def NDIS_RUNTIME_VERSION_620 : Nat := (6 <<< 16) ||| 20

/-- `STATUS_SUCCESS` NTSTATUS code. -/
def STATUS_SUCCESS : Nat := 0

/-- `NDIS_STATUS_UNSUPPORTED_REVISION` NTSTATUS code (0xC042001F). -/
def NDIS_STATUS_UNSUPPORTED_REVISION : Nat := 0xC042001F

/-- `STATUS_INSUFFICIENT_RESOURCES` NTSTATUS code (0xC000009A), a
typical failure status an external call may return. -/
def STATUS_INSUFFICIENT_RESOURCES : Nat := 0xC000009A

/-- `NT_SUCCESS`: a 32-bit NTSTATUS is a success code iff it is
non-negative as a signed 32-bit value, i.e. below 2^31 unsigned. -/
def NT_SUCCESS (s : Nat) : Bool := s < 0x80000000

/-- The environment of one `DriverEntry` invocation: the value
`NdisGetVersion()` reports and the status each fallible external call
(`NdisFRegisterFilterDriver`, `IoCreateDevice`, `IoCreateSymbolicLink`,
`InitRingBuffer`) would return if reached. -/
structure DriverEnv where
  ndisGetVersion : Nat
  registerFilterDriverStatus : Nat
  createDeviceStatus : Nat
  createSymbolicLinkStatus : Nat
  initRingBufferStatus : Nat
deriving DecidableEq, Repr

/-- The observable driver state when `DriverEntry` returns: the global
`ndisVersion`, which resources are currently held, with which exponent
`InitRingBuffer` was called (if at all), and the returned status. -/
structure DriverState where
  ndisVersion : Nat
  spinLockAllocated : Bool
  listInitialized : Bool
  filterRegistered : Bool
  unloadHandlerSet : Bool
  deviceCreated : Bool
  symbolicLinkCreated : Bool
  dispatchTableSet : Bool
  ringInitExponent : Option Nat
  ringBufferInitialized : Bool
  status : Nat
deriving DecidableEq, Repr

/-- The driver state before `DriverEntry` runs: nothing acquired. -/
def initialDriverState : DriverState :=
  { ndisVersion := 0
    spinLockAllocated := false
    listInitialized := false
    filterRegistered := false
    unloadHandlerSet := false
    deviceCreated := false
    symbolicLinkCreated := false
    dispatchTableSet := false
    ringInitExponent := none
    ringBufferInitialized := false
    status := STATUS_SUCCESS }

/-- Shallow embedding of `DriverEntry`
(src/winptables/winptables.c, lines 73-201).  It mirrors the source's
`do { ... } while (FALSE)` with `break`-style early exits:
version check; spin-lock allocation and list init; filter-driver
registration; device creation; symbolic-link creation; IRP dispatch
table; ring-buffer initialization with exponent 20.  Each failure
branch performs exactly the cleanup calls the source performs there. -/
def DriverEntry (env : DriverEnv) : DriverState :=
  let s0 := initialDriverState
  if env.ndisGetVersion < NDIS_RUNTIME_VERSION_620 then
    { s0 with ndisVersion := env.ndisGetVersion
              status := NDIS_STATUS_UNSUPPORTED_REVISION }
  else
    let s1 := { s0 with ndisVersion := NDIS_RUNTIME_VERSION_620
                        spinLockAllocated := true
                        listInitialized := true }
    let rStatus := env.registerFilterDriverStatus
    if NT_SUCCESS rStatus = false then
      { s1 with spinLockAllocated := false, status := rStatus }
    else
      let s2 := { s1 with filterRegistered := true, unloadHandlerSet := true }
      let dStatus := env.createDeviceStatus
      if NT_SUCCESS dStatus = false then
        { s2 with spinLockAllocated := false
                  filterRegistered := false
                  status := dStatus }
      else
        let s3 := { s2 with deviceCreated := true }
        let lStatus := env.createSymbolicLinkStatus
        if NT_SUCCESS lStatus = false then
          { s3 with spinLockAllocated := false
                    filterRegistered := false
                    deviceCreated := false
                    status := lStatus }
        else
          let s4 := { s3 with symbolicLinkCreated := true, dispatchTableSet := true }
          let bStatus := env.initRingBufferStatus
          if NT_SUCCESS bStatus = false then
            { s4 with spinLockAllocated := false
                      filterRegistered := false
                      deviceCreated := false
                      ringInitExponent := some 20
                      ringBufferInitialized := false
                      status := bStatus }
          else
            { s4 with ringInitExponent := some 20
                      ringBufferInitialized := true
                      status := bStatus }

/-! ## Ring buffer transport (section 4.4; ring_buffer.c is not in src) -/

/-- Modelled from the spec: a framed telemetry record
`{length:uint32}{type:uint8}{payload}` (section 6).  `length == 0` is
reserved as the wrap marker, so a proper record has a nonempty payload. -/
structure TRecord where
  rtype : Nat
  payload : List Nat
deriving DecidableEq, Repr

/-- The encoded size of a record: 4 length bytes, 1 type byte, payload. -/
def recordSize (r : TRecord) : Nat := 5 + r.payload.length

/-- Modelled from the spec: the encoded form of a record — the payload
length as a little-endian 32-bit field, one type byte, the payload. -/
def encodeRecord (r : TRecord) : List Nat :=
  r.payload.length % 256 ::
  r.payload.length / 256 % 256 ::
  r.payload.length / 256 / 256 % 256 ::
  r.payload.length / 256 / 256 / 256 % 256 ::
  r.rtype % 256 :: r.payload

/-- Write one byte at a physical offset of the circular region. -/
def setByte (data : Nat → Nat) (p b : Nat) : Nat → Nat :=
  fun q => if q = p then b else data q

/-- Write a byte list starting at a physical offset. -/
def writeBytes (data : Nat → Nat) (p : Nat) : List Nat → (Nat → Nat)
  | [] => data
  | b :: bs => writeBytes (setByte data p b) (p + 1) bs

/-- Decode the little-endian 32-bit length field at a physical offset. -/
def readLe32 (data : Nat → Nat) (p : Nat) : Nat :=
  data p + 256 * (data (p + 1) + 256 * (data (p + 2) + 256 * data (p + 3)))

/-- Read `n` consecutive bytes starting at a physical offset. -/
def readBytes (data : Nat → Nat) (p n : Nat) : List Nat :=
  (List.range n).map (fun i => data (p + i))

/-- Modelled from the spec: the `RING_BUFFER` of the data model
(section 3) — a fixed-capacity circular byte region plus two
monotonically increasing logical offsets, `writeOffset`
(producer-owned) and `readOffset` (consumer-owned), and the
`RingOverflow` counter; ring_buffer.c is not in src.  A logical offset
`o` denotes the physical position `o % capacity`. -/
structure RING_BUFFER where
  capacity : Nat
  data : Nat → Nat
  writeOffset : Nat
  readOffset : Nat
  ringOverflowCount : Nat

/-- Modelled from the spec: `InitRingBuffer` (declared in ring_buffer.h
and called from DriverEntry with exponent 20; ring_buffer.c is not in
src) creates a zeroed circular region of `2 ^ p` bytes — the source
comment reads: 20 means 1<<20 bytes = 1MB — with both offsets 0. -/
def InitRingBuffer (p : Nat) : RING_BUFFER :=
  { capacity := 2 ^ p
    data := fun _ => 0
    writeOffset := 0
    readOffset := 0
    ringOverflowCount := 0 }

/-- The unread byte count held in the ring. -/
def usedSpace (rb : RING_BUFFER) : Nat := rb.writeOffset - rb.readOffset

/-- The remaining free space of the ring. -/
def freeSpace (rb : RING_BUFFER) : Nat := rb.capacity - usedSpace rb

/-- The space a record consumes when enqueued at the current write
position: its encoded size, plus the padded tail when the encoded form
would cross the buffer's physical end. -/
def neededSpace (rb : RING_BUFFER) (r : TRecord) : Nat :=
  if rb.capacity - rb.writeOffset % rb.capacity < recordSize r
  then (rb.capacity - rb.writeOffset % rb.capacity) + recordSize r
  else recordSize r

/-- Modelled from the spec: `tryEnqueue(record) -> bool` (section 4.4),
non-blocking.  A record whose encoded form would cross the buffer's
physical end is not split: the producer pads the tail up to the
physical end with zero bytes — whose first four bytes are the
zero-length wrap marker whenever a length field fits there — and
writes the full record starting at physical offset 0.  On overflow the
newest record is discarded, `RingOverflow` is incremented, and the
offsets and stored bytes are untouched.  A record with an empty
payload would be indistinguishable from the reserved zero-length wrap
marker, so it is rejected outright. -/
def tryEnqueue (rb : RING_BUFFER) (r : TRecord) : RING_BUFFER × Bool :=
  if r.payload.length = 0 then (rb, false)
  else if freeSpace rb < neededSpace rb r then
    ({ rb with ringOverflowCount := rb.ringOverflowCount + 1 }, false)
  else if rb.capacity - rb.writeOffset % rb.capacity < recordSize r then
    ({ rb with
        data := writeBytes
          (writeBytes rb.data (rb.writeOffset % rb.capacity)
            (List.replicate (rb.capacity - rb.writeOffset % rb.capacity) 0))
          0 (encodeRecord r)
        writeOffset := rb.writeOffset +
          ((rb.capacity - rb.writeOffset % rb.capacity) + recordSize r) }, true)
  else
    ({ rb with
        data := writeBytes rb.data (rb.writeOffset % rb.capacity) (encodeRecord r)
        writeOffset := rb.writeOffset + recordSize r }, true)

/-- The consumer's position after the wrap check: when fewer than 4
bytes remain before the physical end or the length field there is the
zero wrap marker, the reader's logical offset advances past the padded
tail, restarting at physical offset 0. -/
def drainSkip (rb : RING_BUFFER) : Nat :=
  if rb.capacity - rb.readOffset % rb.capacity < 4 ∨
     readLe32 rb.data (rb.readOffset % rb.capacity) = 0
  then rb.readOffset + (rb.capacity - rb.readOffset % rb.capacity)
  else rb.readOffset

/-- Modelled from the spec: one step of `drain` — the consumer reads
the next framed record; `none` on an empty ring.  After the wrap check
of `drainSkip`, it reads `{length}{type}{payload}` contiguously and
advances `readOffset` past the record. -/
def drainOne (rb : RING_BUFFER) : RING_BUFFER × Option TRecord :=
  if rb.readOffset = rb.writeOffset then (rb, none)
  else
    ({ rb with readOffset :=
        drainSkip rb + 5 + readLe32 rb.data (drainSkip rb % rb.capacity) },
     some { rtype := rb.data (drainSkip rb % rb.capacity + 4)
            payload := readBytes rb.data (drainSkip rb % rb.capacity + 5)
                         (readLe32 rb.data (drainSkip rb % rb.capacity)) })

/-- Fuel-indexed well-formedness of the framed segment between logical
offsets `r` and `w`: a sequence of contiguously stored records, where
a wrap skip (a tail too short for a length field, or an explicit
zero-length marker) is always followed by a record at physical
offset 0. -/
def validSegF (data : Nat → Nat) (cap : Nat) : Nat → Nat → Nat → Bool
  | 0, r, w => decide (r = w)
  | fuel + 1, r, w =>
    if r = w then true
    else
      let p := r % cap
      let toEnd := cap - p
      if toEnd < 4 ∨ readLe32 data p = 0 then
        decide (r + toEnd < w) && decide (readLe32 data 0 ≠ 0) &&
          validSegF data cap fuel (r + toEnd) w
      else
        decide (p + 5 + readLe32 data p ≤ cap) &&
        decide (r + 5 + readLe32 data p ≤ w) &&
          validSegF data cap fuel (r + 5 + readLe32 data p) w

/-- The ring-buffer invariant: a capacity that is at least one length
field and fits the 32-bit capacity field of the shared layout,
`readOffset ≤ writeOffset`, at most `capacity` unread bytes, and a
validly framed unread segment. -/
@[reducible]
def wfRing (rb : RING_BUFFER) : Prop :=
  4 ≤ rb.capacity ∧
  rb.capacity < 2 ^ 32 ∧
  rb.readOffset ≤ rb.writeOffset ∧
  rb.writeOffset - rb.readOffset ≤ rb.capacity ∧
  validSegF rb.data rb.capacity (rb.writeOffset - rb.readOffset)
    rb.readOffset rb.writeOffset = true

/-- One transport operation: a producer-side `tryEnqueue` or one
consumer-side `drain` step. -/
inductive RingOp where
  | enq (r : TRecord)
  | deq
deriving Repr

/-- Apply one transport operation to the ring state. -/
def applyRingOp (rb : RING_BUFFER) : RingOp → RING_BUFFER
  | RingOp.enq r => (tryEnqueue rb r).1
  | RingOp.deq => (drainOne rb).1

/-- Run a sequence of transport operations. -/
def runRingOps (rb : RING_BUFFER) : List RingOp → RING_BUFFER
  | [] => rb
  | op :: ops => runRingOps (applyRingOp rb op) ops

/-! ### Byte-store lemmas -/

theorem writeBytes_outside : ∀ (bs : List Nat) (data : Nat → Nat) (p q : Nat),
    q < p ∨ p + bs.length ≤ q → writeBytes data p bs q = data q := by
  intro bs
  induction bs with
  | nil => intro data p q _; rfl
  | cons b bs ih =>
    intro data p q h
    simp only [List.length_cons] at h
    have hrec := ih (setByte data p b) (p + 1) q (by omega)
    simp only [writeBytes]
    rw [hrec, setByte]
    have hq : q ≠ p := by omega
    simp [hq]

theorem writeBytes_inside : ∀ (bs : List Nat) (data : Nat → Nat) (p i : Nat),
    i < bs.length → writeBytes data p bs (p + i) = bs.getD i 0 := by
  intro bs
  induction bs with
  | nil => intro data p i h; simp at h
  | cons b bs ih =>
    intro data p i _h
    cases i with
    | zero =>
      simp only [writeBytes]
      rw [writeBytes_outside bs (setByte data p b) (p + 1) (p + 0) (Or.inl (by omega))]
      simp [setByte, List.getD]
    | succ j =>
      simp only [writeBytes]
      have hj : j < bs.length := by
        simp only [List.length_cons] at _h; omega
      have heq : p + (j + 1) = (p + 1) + j := by omega
      rw [heq, ih (setByte data p b) (p + 1) j hj]
      simp [List.getD]

theorem getD_replicate (a d : Nat) : ∀ n i, i < n → (List.replicate n a).getD i d = a := by
  intro n
  induction n with
  | zero => intro i h; omega
  | succ m ih =>
    intro i h
    cases i with
    | zero => simp [List.replicate, List.getD]
    | succ j => simpa [List.replicate, List.getD] using ih j (by omega)

theorem range_map_getD : ∀ (l : List Nat),
    (List.range l.length).map (fun i => l.getD i 0) = l := by
  intro l
  induction l with
  | nil => simp
  | cons a l ih =>
    rw [List.length_cons, List.range_succ_eq_map]
    simp only [List.map_cons, List.map_map]
    have hfun : ((fun i => (a :: l).getD i 0) ∘ Nat.succ) = (fun i => l.getD i 0) := by
      funext i
      simp [List.getD]
    rw [hfun, ih]
    simp [List.getD]

theorem readBytes_getD (data : Nat → Nat) (p : Nat) (l : List Nat)
    (h : ∀ i, i < l.length → data (p + i) = l.getD i 0) :
    readBytes data p l.length = l := by
  unfold readBytes
  have hcongr : (List.range l.length).map (fun i => data (p + i)) =
      (List.range l.length).map (fun i => l.getD i 0) := by
    apply List.map_congr_left
    intro i hi
    exact h i (List.mem_range.mp hi)
  rw [hcongr, range_map_getD]

/-! ### Encoding round-trips -/

theorem le32_decode (n : Nat) (h : n < 2 ^ 32) :
    n % 256 + 256 * (n / 256 % 256 + 256 * (n / 256 / 256 % 256 +
      256 * (n / 256 / 256 / 256 % 256))) = n := by
  omega

theorem encodeRecord_length (r : TRecord) :
    (encodeRecord r).length = recordSize r := by
  simp [encodeRecord, recordSize]
  omega

theorem readLe32_writeBytes_encode (data : Nat → Nat) (p : Nat) (r : TRecord)
    (h : r.payload.length < 2 ^ 32) :
    readLe32 (writeBytes data p (encodeRecord r)) p = r.payload.length := by
  have hl : ∀ i, i < 4 → i < (encodeRecord r).length := by
    intro i hi
    rw [encodeRecord_length]
    simp [recordSize]
    omega
  have h0 := writeBytes_inside (encodeRecord r) data p 0 (hl 0 (by omega))
  have h1 := writeBytes_inside (encodeRecord r) data p 1 (hl 1 (by omega))
  have h2 := writeBytes_inside (encodeRecord r) data p 2 (hl 2 (by omega))
  have h3 := writeBytes_inside (encodeRecord r) data p 3 (hl 3 (by omega))
  simp only [Nat.add_zero] at h0
  have g0 : (encodeRecord r).getD 0 0 = r.payload.length % 256 := by
    simp [encodeRecord, List.getD]
  have g1 : (encodeRecord r).getD 1 0 = r.payload.length / 256 % 256 := by
    simp [encodeRecord, List.getD]
  have g2 : (encodeRecord r).getD 2 0 = r.payload.length / 256 / 256 % 256 := by
    simp [encodeRecord, List.getD]
  have g3 : (encodeRecord r).getD 3 0 = r.payload.length / 256 / 256 / 256 % 256 := by
    simp [encodeRecord, List.getD]
  rw [g0] at h0
  rw [g1] at h1
  rw [g2] at h2
  rw [g3] at h3
  simp only [readLe32, h0, h1, h2, h3]
  exact le32_decode _ h

theorem typeByte_writeBytes_encode (data : Nat → Nat) (p : Nat) (r : TRecord) :
    writeBytes data p (encodeRecord r) (p + 4) = r.rtype % 256 := by
  have h4 := writeBytes_inside (encodeRecord r) data p 4
    (by rw [encodeRecord_length]; simp [recordSize]; omega)
  simpa [encodeRecord, List.getD] using h4

theorem payload_writeBytes_encode (data : Nat → Nat) (p : Nat) (r : TRecord) :
    readBytes (writeBytes data p (encodeRecord r)) (p + 5) r.payload.length = r.payload := by
  apply readBytes_getD
  intro i hi
  have hidx : 5 + i < (encodeRecord r).length := by
    rw [encodeRecord_length]; simp [recordSize]; omega
  have h5 := writeBytes_inside (encodeRecord r) data p (5 + i) hidx
  have heq : p + (5 + i) = p + 5 + i := by omega
  rw [heq] at h5
  rw [h5]
  have h5i : 5 + i = i + 1 + 1 + 1 + 1 + 1 := by omega
  rw [h5i]
  simp [encodeRecord, List.getD]

/-! ### Modular position lemmas -/

theorem add_toEnd_mod (cap r : Nat) (h : 0 < cap) :
    (r + (cap - r % cap)) % cap = 0 := by
  have hm : r % cap < cap := Nat.mod_lt _ h
  have hdm : cap * (r / cap) + r % cap = r := Nat.div_add_mod r cap
  have hx : r + (cap - r % cap) = cap * (r / cap + 1) := by
    rw [Nat.mul_add, Nat.mul_one]
    omega
  rw [hx]
  exact Nat.mul_mod_right _ _

theorem mod_add_small (cap a j : Nat) (ha : a % cap = 0) (hj : j < cap) :
    (a + j) % cap = j := by
  rw [Nat.add_mod, ha]
  simp [Nat.mod_eq_of_lt hj]

theorem mod_ne_of_span (cap x y : Nat) (h1 : x < y) (h2 : y - x < cap) :
    x % cap ≠ y % cap := by
  intro h
  have hd : cap ∣ y - x := (Nat.modEq_iff_dvd' (Nat.le_of_lt h1)).mp h
  have hle := Nat.le_of_dvd (by omega) hd
  omega

theorem mod_add_in_range (cap w j : Nat) (hj : w % cap + j < cap) :
    (w + j) % cap = w % cap + j := by
  have hjlt : j < cap := by omega
  rw [Nat.add_mod, Nat.mod_eq_of_lt hjlt, Nat.mod_eq_of_lt hj]

/-! ### Segment-framing lemmas -/

theorem validSegF_self (data : Nat → Nat) (cap : Nat) (fuel r : Nat) :
    validSegF data cap fuel r r = true := by
  cases fuel <;> simp [validSegF]

theorem validSegF_mono (data : Nat → Nat) (cap : Nat) :
    ∀ fuel fuel' r w, fuel ≤ fuel' → validSegF data cap fuel r w = true →
      validSegF data cap fuel' r w = true := by
  intro fuel
  induction fuel with
  | zero =>
    intro fuel' r w _ h
    simp [validSegF] at h
    subst h
    exact validSegF_self data cap fuel' _
  | succ f ih =>
    intro fuel' r w hle h
    by_cases hrw : r = w
    · subst hrw
      exact validSegF_self data cap fuel' _
    · obtain ⟨f', rfl⟩ : ∃ f', fuel' = f' + 1 := ⟨fuel' - 1, by omega⟩
      simp only [validSegF] at h ⊢
      rw [if_neg hrw] at h ⊢
      by_cases hc : cap - r % cap < 4 ∨ readLe32 data (r % cap) = 0
      · rw [if_pos hc] at h ⊢
        simp only [Bool.and_eq_true, decide_eq_true_eq] at h ⊢
        obtain ⟨⟨h1, h2⟩, h3⟩ := h
        exact ⟨⟨h1, h2⟩, ih f' _ _ (by omega) h3⟩
      · rw [if_neg hc] at h ⊢
        simp only [Bool.and_eq_true, decide_eq_true_eq] at h ⊢
        obtain ⟨⟨h1, h2⟩, h3⟩ := h
        exact ⟨⟨h1, h2⟩, ih f' _ _ (by omega) h3⟩

theorem validSegF_shrink (data : Nat → Nat) (cap : Nat) (hcap : 0 < cap) :
    ∀ fuel r w, validSegF data cap fuel r w = true →
      validSegF data cap (w - r) r w = true := by
  intro fuel
  induction fuel with
  | zero =>
    intro r w h
    simp [validSegF] at h
    subst h
    simpa using validSegF_self data cap 0 _
  | succ f ih =>
    intro r w h
    by_cases hrw : r = w
    · subst hrw
      simpa using validSegF_self data cap 0 r
    · have hm : r % cap < cap := Nat.mod_lt _ hcap
      simp only [validSegF] at h
      rw [if_neg hrw] at h
      by_cases hc : cap - r % cap < 4 ∨ readLe32 data (r % cap) = 0
      · rw [if_pos hc] at h
        simp only [Bool.and_eq_true, decide_eq_true_eq] at h
        obtain ⟨⟨h1, h2⟩, h3⟩ := h
        obtain ⟨k, hk⟩ : ∃ k, w - r = k + 1 := ⟨w - r - 1, by omega⟩
        rw [hk]
        simp only [validSegF]
        rw [if_neg hrw, if_pos hc]
        simp only [Bool.and_eq_true, decide_eq_true_eq]
        exact ⟨⟨h1, h2⟩,
          validSegF_mono data cap _ k _ w (by omega) (ih _ _ h3)⟩
      · rw [if_neg hc] at h
        simp only [Bool.and_eq_true, decide_eq_true_eq] at h
        obtain ⟨⟨h1, h2⟩, h3⟩ := h
        obtain ⟨k, hk⟩ : ∃ k, w - r = k + 1 := ⟨w - r - 1, by omega⟩
        rw [hk]
        simp only [validSegF]
        rw [if_neg hrw, if_neg hc]
        simp only [Bool.and_eq_true, decide_eq_true_eq]
        exact ⟨⟨h1, h2⟩,
          validSegF_mono data cap _ k _ w (by omega) (ih _ _ h3)⟩

theorem validSegF_retime (data : Nat → Nat) (cap : Nat) (hcap : 0 < cap)
    (fuel fuel' r w : Nat) (h : validSegF data cap fuel r w = true)
    (hle : w - r ≤ fuel') : validSegF data cap fuel' r w = true :=
  validSegF_mono data cap (w - r) fuel' r w hle
    (validSegF_shrink data cap hcap fuel r w h)

theorem validSegF_append (data : Nat → Nat) (cap : Nat) (hcap : 0 < cap) :
    ∀ f1 f2 r m w, r ≤ m → m ≤ w →
      validSegF data cap f1 r m = true → validSegF data cap f2 m w = true →
      validSegF data cap (f1 + f2) r w = true := by
  intro f1
  induction f1 with
  | zero =>
    intro f2 r m w _ _ h1 h2
    simp [validSegF] at h1
    subst h1
    simpa using h2
  | succ f ih =>
    intro f2 r m w hrm hmw h1 h2
    by_cases hrw : r = m
    · subst hrw
      exact validSegF_mono data cap f2 (f + 1 + f2) _ w (by omega) h2
    · have hadd : f + 1 + f2 = (f + f2) + 1 := by omega
      rw [hadd]
      simp only [validSegF] at h1 ⊢
      have hrw2 : r ≠ w := by
        intro hq
        subst hq
        omega
      rw [if_neg hrw] at h1
      rw [if_neg hrw2]
      by_cases hc : cap - r % cap < 4 ∨ readLe32 data (r % cap) = 0
      · rw [if_pos hc] at h1 ⊢
        simp only [Bool.and_eq_true, decide_eq_true_eq] at h1 ⊢
        obtain ⟨⟨g1, g2⟩, g3⟩ := h1
        exact ⟨⟨by omega, g2⟩, ih f2 _ m w (by omega) hmw g3 h2⟩
      · rw [if_neg hc] at h1 ⊢
        simp only [Bool.and_eq_true, decide_eq_true_eq] at h1 ⊢
        obtain ⟨⟨g1, g2⟩, g3⟩ := h1
        exact ⟨⟨g1, by omega⟩, ih f2 _ m w (by omega) hmw g3 h2⟩

theorem readLe32_congr (data data' : Nat → Nat) (cap r w a : Nat)
    (hag : ∀ i, r ≤ i → i < w → data' (i % cap) = data (i % cap))
    (hra : r ≤ a) (hto : a % cap + 4 ≤ cap) (hw : a + 4 ≤ w) :
    readLe32 data' (a % cap) = readLe32 data (a % cap) := by
  have hb : ∀ j, j < 4 → data' (a % cap + j) = data (a % cap + j) := by
    intro j hj
    have hmod : (a + j) % cap = a % cap + j := mod_add_in_range cap a j (by omega)
    have h2 := hag (a + j) (by omega) (by omega)
    rw [hmod] at h2
    exact h2
  have e0 := hb 0 (by omega)
  have e1 := hb 1 (by omega)
  have e2 := hb 2 (by omega)
  have e3 := hb 3 (by omega)
  simp only [Nat.add_zero] at e0
  simp only [readLe32, e0, e1, e2, e3]

theorem validSegF_one_record (data : Nat → Nat) (cap a p : Nat)
    (hp : a % cap = p) (hto : ¬(cap - p < 4)) (hnz : readLe32 data p ≠ 0)
    (hfit : p + 5 + readLe32 data p ≤ cap) (f : Nat) :
    validSegF data cap (f + 1) a (a + 5 + readLe32 data p) = true := by
  simp only [validSegF]
  rw [hp]
  rw [if_neg (by omega : ¬ a = a + 5 + readLe32 data p)]
  rw [if_neg (by push_neg; exact ⟨by omega, hnz⟩)]
  simp only [Bool.and_eq_true, decide_eq_true_eq]
  exact ⟨⟨hfit, Nat.le_refl _⟩, validSegF_self data cap f _⟩

theorem validSegF_skip_then_record (data : Nat → Nat) (cap : Nat) (hcap : 4 ≤ cap)
    (a w : Nat) (hT : 0 < cap - a % cap)
    (hpad : cap - a % cap < 4 ∨ readLe32 data (a % cap) = 0)
    (hnz : readLe32 data 0 ≠ 0)
    (hfit : 5 + readLe32 data 0 ≤ cap)
    (hw : w = a + (cap - a % cap) + 5 + readLe32 data 0) (f : Nat) :
    validSegF data cap (f + 2) a w = true := by
  show validSegF data cap (f + 1 + 1) a w = true
  simp only [validSegF]
  rw [if_neg (by omega : ¬ a = w)]
  rw [if_pos hpad]
  simp only [Bool.and_eq_true, decide_eq_true_eq]
  refine ⟨⟨by omega, hnz⟩, ?_⟩
  have hz : (a + (cap - a % cap)) % cap = 0 := add_toEnd_mod cap a (by omega)
  have hone := validSegF_one_record data cap (a + (cap - a % cap)) 0 hz
    (by omega) hnz (by omega) f
  rw [hw]
  exact hone

theorem validSegF_after_skip (data : Nat → Nat) (cap : Nat) (hcap : 4 ≤ cap)
    (f a w : Nat) (ha : a % cap = 0) (haw : a < w) (hnz : readLe32 data 0 ≠ 0)
    (h : validSegF data cap f a w = true) :
    a + 5 + readLe32 data 0 ≤ w ∧ 5 + readLe32 data 0 ≤ cap ∧
    validSegF data cap (w - (a + 5 + readLe32 data 0))
      (a + 5 + readLe32 data 0) w = true := by
  cases f with
  | zero =>
    simp [validSegF] at h
    omega
  | succ f =>
    simp only [validSegF] at h
    rw [if_neg (by omega : ¬ a = w)] at h
    rw [ha] at h
    rw [if_neg (by push_neg; exact ⟨by omega, hnz⟩)] at h
    simp only [Bool.and_eq_true, decide_eq_true_eq] at h
    obtain ⟨⟨h1, h2⟩, h3⟩ := h
    refine ⟨h2, by omega, ?_⟩
    exact validSegF_retime data cap (by omega) f _ _ _ h3 (Nat.le_refl _)

theorem validSegF_congr (data data' : Nat → Nat) (cap : Nat) (hcap : 4 ≤ cap) :
    ∀ fuel r w,
      (∀ i, r ≤ i → i < w → data' (i % cap) = data (i % cap)) →
      validSegF data cap fuel r w = true →
      validSegF data' cap fuel r w = true := by
  intro fuel
  induction fuel with
  | zero =>
    intro r w _ h
    simp [validSegF] at h
    subst h
    exact validSegF_self data' cap 0 _
  | succ f ih =>
    intro r w hag h
    by_cases hrw : r = w
    · subst hrw
      exact validSegF_self data' cap (f + 1) _
    · have hcap0 : 0 < cap := by omega
      have hm : r % cap < cap := Nat.mod_lt _ hcap0
      simp only [validSegF] at h ⊢
      rw [if_neg hrw] at h ⊢
      by_cases hc : cap - r % cap < 4 ∨ readLe32 data (r % cap) = 0
      · -- skip branch for `data`
        rw [if_pos hc] at h
        simp only [Bool.and_eq_true, decide_eq_true_eq] at h
        obtain ⟨⟨h1, h2⟩, h3⟩ := h
        have hz : (r + (cap - r % cap)) % cap = 0 := add_toEnd_mod cap r hcap0
        obtain ⟨hb1, hb2, _⟩ :=
          validSegF_after_skip data cap hcap f _ w hz h1 h2 h3
        have ht0 : readLe32 data' 0 = readLe32 data 0 := by
          have hx := readLe32_congr data data' cap r w (r + (cap - r % cap)) hag
            (by omega) (by rw [hz]; omega) (by omega)
          rwa [hz] at hx
        have hcnd' : cap - r % cap < 4 ∨ readLe32 data' (r % cap) = 0 := by
          rcases hc with hlt | hzero
          · exact Or.inl hlt
          · by_cases hto : cap - r % cap < 4
            · exact Or.inl hto
            · refine Or.inr ?_
              have hx := readLe32_congr data data' cap r w r hag
                (Nat.le_refl r) (by omega) (by omega)
              rw [hx, hzero]
        rw [if_pos hcnd']
        simp only [Bool.and_eq_true, decide_eq_true_eq]
        refine ⟨⟨h1, ?_⟩, ih _ _ (fun i hi1 hi2 => hag i (by omega) hi2) h3⟩
        rw [ht0]
        exact h2
      · -- record branch for `data`
        rw [if_neg hc] at h
        simp only [Bool.and_eq_true, decide_eq_true_eq] at h
        obtain ⟨⟨h1, h2⟩, h3⟩ := h
        push_neg at hc
        obtain ⟨hto4, hnz⟩ := hc
        have ht : readLe32 data' (r % cap) = readLe32 data (r % cap) :=
          readLe32_congr data data' cap r w r hag (Nat.le_refl r) (by omega) (by omega)
        have hcnd' : ¬(cap - r % cap < 4 ∨ readLe32 data' (r % cap) = 0) := by
          push_neg
          refine ⟨hto4, ?_⟩
          rw [ht]
          exact hnz
        rw [if_neg hcnd']
        simp only [Bool.and_eq_true, decide_eq_true_eq]
        rw [ht]
        exact ⟨⟨h1, h2⟩, ih _ _ (fun i hi1 hi2 => hag i (by omega) hi2) h3⟩

/-- Writing a record in place (no wrap) does not disturb the physical
positions holding the unread segment `[readOffset, writeOffset)`. -/
theorem write_agree_nonwrap (rb : RING_BUFFER) (rec : TRecord)
    (hrw : rb.readOffset ≤ rb.writeOffset)
    (hspan : rb.writeOffset - rb.readOffset + recordSize rec ≤ rb.capacity)
    (hT : recordSize rec ≤ rb.capacity - rb.writeOffset % rb.capacity) :
    ∀ i, rb.readOffset ≤ i → i < rb.writeOffset →
      writeBytes rb.data (rb.writeOffset % rb.capacity) (encodeRecord rec)
        (i % rb.capacity) = rb.data (i % rb.capacity) := by
  intro i hi1 hi2
  have hc0 : 0 < rb.capacity := by
    have : 5 ≤ recordSize rec := by simp [recordSize]
    omega
  have hm : rb.writeOffset % rb.capacity < rb.capacity := Nat.mod_lt _ hc0
  apply writeBytes_outside
  rw [encodeRecord_length]
  by_contra hcon
  push_neg at hcon
  obtain ⟨hc1, hc2⟩ := hcon
  have hj : (rb.writeOffset + (i % rb.capacity - rb.writeOffset % rb.capacity))
      % rb.capacity = i % rb.capacity := by
    rw [mod_add_in_range]
    · omega
    · have him : i % rb.capacity < rb.capacity := Nat.mod_lt _ hc0
      omega
  have hne := mod_ne_of_span rb.capacity i
    (rb.writeOffset + (i % rb.capacity - rb.writeOffset % rb.capacity))
    (by omega) (by omega)
  rw [hj] at hne
  exact hne rfl

/-- Writing a wrapped record (zero padding at the tail, the record at
physical offset 0) does not disturb the physical positions holding the
unread segment `[readOffset, writeOffset)`. -/
theorem write_agree_wrap (rb : RING_BUFFER) (rec : TRecord)
    (hrw : rb.readOffset ≤ rb.writeOffset)
    (hspan : rb.writeOffset - rb.readOffset +
      ((rb.capacity - rb.writeOffset % rb.capacity) + recordSize rec) ≤ rb.capacity)
    (hc0 : 0 < rb.capacity) :
    ∀ i, rb.readOffset ≤ i → i < rb.writeOffset →
      writeBytes
        (writeBytes rb.data (rb.writeOffset % rb.capacity)
          (List.replicate (rb.capacity - rb.writeOffset % rb.capacity) 0))
        0 (encodeRecord rec) (i % rb.capacity) = rb.data (i % rb.capacity) := by
  intro i hi1 hi2
  have hm : rb.writeOffset % rb.capacity < rb.capacity := Nat.mod_lt _ hc0
  have him : i % rb.capacity < rb.capacity := Nat.mod_lt _ hc0
  have hz : (rb.writeOffset + (rb.capacity - rb.writeOffset % rb.capacity))
      % rb.capacity = 0 := add_toEnd_mod _ _ hc0
  -- the record region `[0, recordSize rec)` misses `i % capacity`
  have houter : recordSize rec ≤ i % rb.capacity := by
    by_contra hcon
    push_neg at hcon
    have hj : (rb.writeOffset + (rb.capacity - rb.writeOffset % rb.capacity)
        + i % rb.capacity) % rb.capacity = i % rb.capacity := by
      rw [mod_add_small _ _ _ hz him]
    have hne := mod_ne_of_span rb.capacity i
      (rb.writeOffset + (rb.capacity - rb.writeOffset % rb.capacity) + i % rb.capacity)
      (by omega) (by omega)
    rw [hj] at hne
    exact hne rfl
  -- the padded region `[p, p + toEnd)` misses `i % capacity`
  have hinner : i % rb.capacity < rb.writeOffset % rb.capacity ∨
      rb.writeOffset % rb.capacity + (rb.capacity - rb.writeOffset % rb.capacity)
        ≤ i % rb.capacity := by
    by_contra hcon
    push_neg at hcon
    obtain ⟨hc1, hc2⟩ := hcon
    have hj : (rb.writeOffset + (i % rb.capacity - rb.writeOffset % rb.capacity))
        % rb.capacity = i % rb.capacity := by
      rw [mod_add_in_range]
      · omega
      · omega
    have hne := mod_ne_of_span rb.capacity i
      (rb.writeOffset + (i % rb.capacity - rb.writeOffset % rb.capacity))
      (by omega) (by omega)
    rw [hj] at hne
    exact hne rfl
  rw [writeBytes_outside _ _ _ _ (by rw [encodeRecord_length]; omega)]
  rw [writeBytes_outside _ _ _ _ (by rw [List.length_replicate]; exact hinner)]

theorem tryEnqueue_wf (rb : RING_BUFFER) (rec : TRecord) (h : wfRing rb) :
    wfRing (tryEnqueue rb rec).1 := by
  obtain ⟨hc4, hc32, hrw, hdiff, hval⟩ := h
  have hcap0 : 0 < rb.capacity := by omega
  have hm : rb.writeOffset % rb.capacity < rb.capacity := Nat.mod_lt _ hcap0
  have hS : recordSize rec = 5 + rec.payload.length := rfl
  unfold tryEnqueue
  by_cases h0 : rec.payload.length = 0
  · rw [if_pos h0]
    exact ⟨hc4, hc32, hrw, hdiff, hval⟩
  rw [if_neg h0]
  by_cases hov : freeSpace rb < neededSpace rb rec
  · rw [if_pos hov]
    exact ⟨hc4, hc32, hrw, hdiff, hval⟩
  rw [if_neg hov]
  rw [freeSpace, usedSpace] at hov
  push_neg at hov
  by_cases hwrap : rb.capacity - rb.writeOffset % rb.capacity < recordSize rec
  · -- wrap: pad the tail, record restarts at physical offset 0
    rw [if_pos hwrap]
    rw [neededSpace, if_pos hwrap] at hov
    have hlt32 : rec.payload.length < 2 ^ 32 := by omega
    have hspan : rb.writeOffset - rb.readOffset +
        ((rb.capacity - rb.writeOffset % rb.capacity) + recordSize rec) ≤ rb.capacity := by
      omega
    have hagree := write_agree_wrap rb rec hrw hspan hcap0
    have hA := validSegF_congr rb.data _ rb.capacity hc4 _ rb.readOffset rb.writeOffset
      hagree hval
    -- the record's length field read back at physical offset 0
    have hlen0 : readLe32
        (writeBytes
          (writeBytes rb.data (rb.writeOffset % rb.capacity)
            (List.replicate (rb.capacity - rb.writeOffset % rb.capacity) 0))
          0 (encodeRecord rec)) 0 = rec.payload.length := by
      have := readLe32_writeBytes_encode
        (writeBytes rb.data (rb.writeOffset % rb.capacity)
          (List.replicate (rb.capacity - rb.writeOffset % rb.capacity) 0))
        0 rec hlt32
      simpa using this
    -- the padded tail reads as the zero wrap marker when 4 bytes fit
    have hpad : rb.capacity - rb.writeOffset % rb.capacity < 4 ∨
        readLe32
          (writeBytes
            (writeBytes rb.data (rb.writeOffset % rb.capacity)
              (List.replicate (rb.capacity - rb.writeOffset % rb.capacity) 0))
            0 (encodeRecord rec)) (rb.writeOffset % rb.capacity) = 0 := by
      by_cases hto : rb.capacity - rb.writeOffset % rb.capacity < 4
      · exact Or.inl hto
      · refine Or.inr ?_
        have hSP : recordSize rec ≤ rb.writeOffset % rb.capacity := by omega
        have hbyte : ∀ j, j < 4 →
            writeBytes
              (writeBytes rb.data (rb.writeOffset % rb.capacity)
                (List.replicate (rb.capacity - rb.writeOffset % rb.capacity) 0))
              0 (encodeRecord rec) (rb.writeOffset % rb.capacity + j) = 0 := by
          intro j hj
          rw [writeBytes_outside _ _ _ _
            (Or.inr (by rw [encodeRecord_length]; omega))]
          have := writeBytes_inside
            (List.replicate (rb.capacity - rb.writeOffset % rb.capacity) 0)
            rb.data (rb.writeOffset % rb.capacity) j
            (by rw [List.length_replicate]; omega)
          rw [this, getD_replicate _ _ _ j (by omega)]
        have e0 := hbyte 0 (by omega)
        have e1 := hbyte 1 (by omega)
        have e2 := hbyte 2 (by omega)
        have e3 := hbyte 3 (by omega)
        simp only [Nat.add_zero] at e0
        simp only [readLe32, e0, e1, e2, e3]
    have hB := validSegF_skip_then_record
      (writeBytes
        (writeBytes rb.data (rb.writeOffset % rb.capacity)
          (List.replicate (rb.capacity - rb.writeOffset % rb.capacity) 0))
        0 (encodeRecord rec))
      rb.capacity hc4 rb.writeOffset
      (rb.writeOffset + ((rb.capacity - rb.writeOffset % rb.capacity) + recordSize rec))
      (by omega) hpad (by rw [hlen0]; omega) (by rw [hlen0]; omega)
      (by rw [hlen0]; omega) 0
    have hAB := validSegF_append _ rb.capacity hcap0
      (rb.writeOffset - rb.readOffset) 2 rb.readOffset rb.writeOffset
      (rb.writeOffset + ((rb.capacity - rb.writeOffset % rb.capacity) + recordSize rec))
      hrw (by omega) hA hB
    refine ⟨hc4, hc32, ?_, ?_, ?_⟩
    · show rb.readOffset ≤ rb.writeOffset +
        ((rb.capacity - rb.writeOffset % rb.capacity) + recordSize rec)
      omega
    · show rb.writeOffset +
        ((rb.capacity - rb.writeOffset % rb.capacity) + recordSize rec) -
        rb.readOffset ≤ rb.capacity
      omega
    · show validSegF
        (writeBytes
          (writeBytes rb.data (rb.writeOffset % rb.capacity)
            (List.replicate (rb.capacity - rb.writeOffset % rb.capacity) 0))
          0 (encodeRecord rec))
        rb.capacity
        (rb.writeOffset + ((rb.capacity - rb.writeOffset % rb.capacity) + recordSize rec)
          - rb.readOffset)
        rb.readOffset
        (rb.writeOffset + ((rb.capacity - rb.writeOffset % rb.capacity) + recordSize rec))
        = true
      exact validSegF_retime _ rb.capacity hcap0 _ _ _ _ hAB (Nat.le_refl _)
  · -- no wrap: the record is stored contiguously in place
    rw [if_neg hwrap]
    rw [neededSpace, if_neg hwrap] at hov
    push_neg at hwrap
    have hlt32 : rec.payload.length < 2 ^ 32 := by omega
    have hspan : rb.writeOffset - rb.readOffset + recordSize rec ≤ rb.capacity := by
      omega
    have hagree := write_agree_nonwrap rb rec hrw hspan hwrap
    have hA := validSegF_congr rb.data _ rb.capacity hc4 _ rb.readOffset rb.writeOffset
      hagree hval
    have hlenP : readLe32
        (writeBytes rb.data (rb.writeOffset % rb.capacity) (encodeRecord rec))
        (rb.writeOffset % rb.capacity) = rec.payload.length :=
      readLe32_writeBytes_encode rb.data (rb.writeOffset % rb.capacity) rec hlt32
    have hB := validSegF_one_record
      (writeBytes rb.data (rb.writeOffset % rb.capacity) (encodeRecord rec))
      rb.capacity rb.writeOffset (rb.writeOffset % rb.capacity) rfl
      (by omega) (by rw [hlenP]; omega) (by rw [hlenP]; omega) 0
    rw [hlenP] at hB
    have hww : rb.writeOffset + 5 + rec.payload.length =
        rb.writeOffset + recordSize rec := by
      simp only [recordSize]
      omega
    rw [hww] at hB
    have hAB := validSegF_append _ rb.capacity hcap0
      (rb.writeOffset - rb.readOffset) 1 rb.readOffset rb.writeOffset
      (rb.writeOffset + recordSize rec) hrw (by omega) hA hB
    refine ⟨hc4, hc32, ?_, ?_, ?_⟩
    · show rb.readOffset ≤ rb.writeOffset + recordSize rec
      omega
    · show rb.writeOffset + recordSize rec - rb.readOffset ≤ rb.capacity
      omega
    · show validSegF
        (writeBytes rb.data (rb.writeOffset % rb.capacity) (encodeRecord rec))
        rb.capacity
        (rb.writeOffset + recordSize rec - rb.readOffset)
        rb.readOffset
        (rb.writeOffset + recordSize rec) = true
      exact validSegF_retime _ rb.capacity hcap0 _ _ _ _ hAB (Nat.le_refl _)

theorem drainOne_wf (rb : RING_BUFFER) (h : wfRing rb) :
    wfRing (drainOne rb).1 := by
  obtain ⟨hc4, hc32, hrw, hdiff, hval⟩ := h
  have hcap0 : 0 < rb.capacity := by omega
  have hm : rb.readOffset % rb.capacity < rb.capacity := Nat.mod_lt _ hcap0
  unfold drainOne
  by_cases he : rb.readOffset = rb.writeOffset
  · rw [if_pos he]
    exact ⟨hc4, hc32, hrw, hdiff, hval⟩
  rw [if_neg he]
  obtain ⟨f, hf⟩ : ∃ f, rb.writeOffset - rb.readOffset = f + 1 :=
    ⟨rb.writeOffset - rb.readOffset - 1, by omega⟩
  rw [hf] at hval
  simp only [validSegF] at hval
  rw [if_neg he] at hval
  by_cases hcond : rb.capacity - rb.readOffset % rb.capacity < 4 ∨
      readLe32 rb.data (rb.readOffset % rb.capacity) = 0
  · -- the reader skips the padded tail and reads the record at offset 0
    rw [if_pos hcond] at hval
    simp only [Bool.and_eq_true, decide_eq_true_eq] at hval
    obtain ⟨⟨h1, h2⟩, h3⟩ := hval
    have hz : (rb.readOffset + (rb.capacity - rb.readOffset % rb.capacity))
        % rb.capacity = 0 := add_toEnd_mod _ _ hcap0
    obtain ⟨hb1, hb2, hb3⟩ :=
      validSegF_after_skip rb.data rb.capacity hc4 f _ rb.writeOffset hz h1 h2 h3
    have hds : drainSkip rb =
        rb.readOffset + (rb.capacity - rb.readOffset % rb.capacity) := by
      unfold drainSkip
      rw [if_pos hcond]
    refine ⟨hc4, hc32, ?_, ?_, ?_⟩
    · show drainSkip rb + 5 + readLe32 rb.data (drainSkip rb % rb.capacity) ≤
        rb.writeOffset
      rw [hds, hz]
      exact hb1
    · show rb.writeOffset -
        (drainSkip rb + 5 + readLe32 rb.data (drainSkip rb % rb.capacity)) ≤
        rb.capacity
      rw [hds, hz]
      omega
    · show validSegF rb.data rb.capacity
        (rb.writeOffset -
          (drainSkip rb + 5 + readLe32 rb.data (drainSkip rb % rb.capacity)))
        (drainSkip rb + 5 + readLe32 rb.data (drainSkip rb % rb.capacity))
        rb.writeOffset = true
      rw [hds, hz]
      exact hb3
  · -- the reader takes the record in place
    rw [if_neg hcond] at hval
    simp only [Bool.and_eq_true, decide_eq_true_eq] at hval
    obtain ⟨⟨h1, h2⟩, h3⟩ := hval
    have hds : drainSkip rb = rb.readOffset := by
      unfold drainSkip
      rw [if_neg hcond]
    refine ⟨hc4, hc32, ?_, ?_, ?_⟩
    · show drainSkip rb + 5 + readLe32 rb.data (drainSkip rb % rb.capacity) ≤
        rb.writeOffset
      rw [hds]
      exact h2
    · show rb.writeOffset -
        (drainSkip rb + 5 + readLe32 rb.data (drainSkip rb % rb.capacity)) ≤
        rb.capacity
      rw [hds]
      omega
    · show validSegF rb.data rb.capacity
        (rb.writeOffset -
          (drainSkip rb + 5 + readLe32 rb.data (drainSkip rb % rb.capacity)))
        (drainSkip rb + 5 + readLe32 rb.data (drainSkip rb % rb.capacity))
        rb.writeOffset = true
      rw [hds]
      exact validSegF_retime _ rb.capacity hcap0 f _ _ _ h3 (Nat.le_refl _)

theorem applyRingOp_wf (rb : RING_BUFFER) (op : RingOp) (h : wfRing rb) :
    wfRing (applyRingOp rb op) := by
  cases op with
  | enq r => exact tryEnqueue_wf rb r h
  | deq => exact drainOne_wf rb h

theorem runRingOps_wf : ∀ (ops : List RingOp) (rb : RING_BUFFER),
    wfRing rb → wfRing (runRingOps rb ops) := by
  intro ops
  induction ops with
  | nil => intro rb h; exact h
  | cons op ops ih =>
    intro rb h
    exact ih _ (applyRingOp_wf rb op h)

theorem InitRingBuffer_wf (e : Nat) (h2 : 2 ≤ e) (h32 : e < 32) :
    wfRing (InitRingBuffer e) := by
  refine ⟨?_, ?_, ?_, ?_, ?_⟩
  · show 4 ≤ 2 ^ e
    calc (4 : Nat) = 2 ^ 2 := by norm_num
    _ ≤ 2 ^ e := Nat.pow_le_pow_right (by omega) h2
  · show 2 ^ e < 2 ^ 32
    exact Nat.pow_lt_pow_right (by omega) h32
  · exact Nat.le_refl 0
  · show 0 - 0 ≤ 2 ^ e
    simp
  · exact validSegF_self _ _ _ _

/-- `tryEnqueue` never decreases `writeOffset`, never touches
`readOffset`, and keeps the capacity fixed. -/
theorem tryEnqueue_mono (rb : RING_BUFFER) (r : TRecord) :
    rb.writeOffset ≤ ((tryEnqueue rb r).1).writeOffset ∧
    ((tryEnqueue rb r).1).readOffset = rb.readOffset ∧
    ((tryEnqueue rb r).1).capacity = rb.capacity := by
  unfold tryEnqueue
  by_cases h0 : r.payload.length = 0
  · rw [if_pos h0]
    exact ⟨Nat.le_refl _, rfl, rfl⟩
  rw [if_neg h0]
  by_cases hov : freeSpace rb < neededSpace rb r
  · rw [if_pos hov]
    exact ⟨Nat.le_refl _, rfl, rfl⟩
  rw [if_neg hov]
  by_cases hwrap : rb.capacity - rb.writeOffset % rb.capacity < recordSize r
  · rw [if_pos hwrap]
    refine ⟨?_, rfl, rfl⟩
    show rb.writeOffset ≤ rb.writeOffset +
      ((rb.capacity - rb.writeOffset % rb.capacity) + recordSize r)
    omega
  · rw [if_neg hwrap]
    refine ⟨?_, rfl, rfl⟩
    show rb.writeOffset ≤ rb.writeOffset + recordSize r
    omega

/-- One `drain` step never decreases `readOffset`, never touches
`writeOffset`, and keeps the capacity fixed. -/
theorem drainOne_mono (rb : RING_BUFFER) :
    ((drainOne rb).1).writeOffset = rb.writeOffset ∧
    rb.readOffset ≤ ((drainOne rb).1).readOffset ∧
    ((drainOne rb).1).capacity = rb.capacity := by
  unfold drainOne
  by_cases he : rb.readOffset = rb.writeOffset
  · rw [if_pos he]
    exact ⟨rfl, Nat.le_refl _, rfl⟩
  · rw [if_neg he]
    refine ⟨rfl, ?_, rfl⟩
    show rb.readOffset ≤
      drainSkip rb + 5 + readLe32 rb.data (drainSkip rb % rb.capacity)
    have hds : rb.readOffset ≤ drainSkip rb := by
      unfold drainSkip
      split
      · omega
      · omega
    omega

/-- Each transport operation keeps `writeOffset` and `readOffset`
non-decreasing and keeps the capacity fixed. -/
theorem applyRingOp_mono (rb : RING_BUFFER) (op : RingOp) :
    rb.writeOffset ≤ (applyRingOp rb op).writeOffset ∧
    rb.readOffset ≤ (applyRingOp rb op).readOffset ∧
    (applyRingOp rb op).capacity = rb.capacity := by
  cases op with
  | enq r =>
    have h := tryEnqueue_mono rb r
    show rb.writeOffset ≤ ((tryEnqueue rb r).1).writeOffset ∧
      rb.readOffset ≤ ((tryEnqueue rb r).1).readOffset ∧
      ((tryEnqueue rb r).1).capacity = rb.capacity
    refine ⟨h.1, ?_, h.2.2⟩
    rw [h.2.1]
  | deq =>
    have h := drainOne_mono rb
    show rb.writeOffset ≤ ((drainOne rb).1).writeOffset ∧
      rb.readOffset ≤ ((drainOne rb).1).readOffset ∧
      ((drainOne rb).1).capacity = rb.capacity
    refine ⟨?_, h.2.1, h.2.2⟩
    rw [h.1]

/-! ## Filter-module lifecycle (section 4.1; filter_subroutines.c is not in src) -/

/-- Modelled from the spec: the lifecycle states of a filter-module
context, section 4.1.  `Removed` stands for `(removed)` — the context
is out of the registry and released. -/
inductive LifecycleState where
  | Attaching
  | Running
  | Paused
  | Detaching
  | Removed
deriving DecidableEq, Repr

/-- Modelled from the spec: the registry events driving the lifecycle
machine — attach initialization succeeding or failing, pause, resume,
detach beginning, and final removal of a detached context.  The
implementation (filter_subroutines.c) is not in src. -/
inductive LcEvent where
  | attachOk
  | attachFail
  | pause
  | resume
  | detach
  | remove
deriving DecidableEq, Repr

/-- Modelled from the spec: one lifecycle transition
(`Attaching → Running ⇄ Paused → Detaching → (removed)`; attach
failures go directly from `Attaching` to removed).  An event that is
not enabled in a state leaves the state unchanged: the losing
operation of a registry race reports an error rather than corrupting
state (section 7). -/
def lcStep : LifecycleState → LcEvent → LifecycleState
  | LifecycleState.Attaching, LcEvent.attachOk => LifecycleState.Running
  | LifecycleState.Attaching, LcEvent.attachFail => LifecycleState.Removed
  | LifecycleState.Running, LcEvent.pause => LifecycleState.Paused
  | LifecycleState.Paused, LcEvent.resume => LifecycleState.Running
  | LifecycleState.Running, LcEvent.detach => LifecycleState.Detaching
  | LifecycleState.Paused, LcEvent.detach => LifecycleState.Detaching
  | LifecycleState.Detaching, LcEvent.remove => LifecycleState.Removed
  | s, _ => s

/-- Run a sequence of lifecycle events. -/
def lcRun (s : LifecycleState) : List LcEvent → LifecycleState
  | [] => s
  | e :: es => lcRun (lcStep s e) es

/-- The (state, event, next-state) transitions along a run. -/
def lcTrace (s : LifecycleState) : List LcEvent → List (LifecycleState × LcEvent × LifecycleState)
  | [] => []
  | e :: es => (s, e, lcStep s e) :: lcTrace (lcStep s e) es

/-! ## Rule engine context and packet pipeline (section 4.3; not in src) -/

/-- Modelled from the spec: the per-adapter FilterModuleContext of the
data model (section 3) — adapter identity, lifecycle state, the active
RuleSet snapshot, and per-adapter counters. -/
structure FilterModuleContext where
  adapter : Nat
  state : LifecycleState
  ruleSet : RuleSet
  acceptedCount : Nat
  droppedCount : Nat
  malformedCount : Nat
deriving DecidableEq, Repr

/-- Modelled from the spec: how one PacketDescriptor is resolved —
forwarded onward, completed back to its origin (drop), or passed
through unmodified. -/
inductive Disposition where
  | forwarded
  | dropped
  | passedThrough
deriving DecidableEq, Repr

/-- Modelled from the spec (section 4.3): the disposition the pipeline
gives one packet.  Absent context, or a context not in `Running`
(paused or detaching), passes the packet through; a malformed packet is
treated as DROP (`MalformedInput`); otherwise classification decides:
ACCEPT and MIRROR forward, DROP completes the packet back. -/
def packetDisposition (ctx : Option FilterModuleContext) (p : Packet) : Disposition :=
  match ctx with
  | none => Disposition.passedThrough
  | some c =>
    if c.state ≠ LifecycleState.Running then Disposition.passedThrough
    else if p.wellFormed = false then Disposition.dropped
    else
      match classify c.ruleSet p with
      | Action.ACCEPT => Disposition.forwarded
      | Action.MIRROR => Disposition.forwarded
      | Action.DROP => Disposition.dropped

/-- Modelled from the spec: a telemetry record summarizing a packet
(framing only; the payload layout is not specified beyond being a
nonempty byte sequence). -/
def telemetryRecord (p : Packet) : TRecord :=
  { rtype := 1
    payload := [p.adapter % 256, p.protocol % 256, p.dstPort % 256, p.dstPort / 256 % 256] }

/-- Whether the pipeline attempts a telemetry enqueue for this packet:
DROP (including the malformed-input path) and MIRROR do, ACCEPT and
pass-through do not. -/
def needsTelemetry (ctx : Option FilterModuleContext) (p : Packet) : Bool :=
  match ctx with
  | none => false
  | some c =>
    if c.state ≠ LifecycleState.Running then false
    else if p.wellFormed = false then true
    else
      match classify c.ruleSet p with
      | Action.ACCEPT => false
      | Action.MIRROR => true
      | Action.DROP => true

/-- Modelled from the spec: one pipeline hook invocation over a linked
batch (section 4.3).  Each packet in the batch is resolved
independently to exactly one disposition, in order; DROP and MIRROR
attempt a non-blocking telemetry enqueue into the ring.  Returns the
ring state and the per-packet resolutions. -/
def processHook (ctx : Option FilterModuleContext) :
    RING_BUFFER → List Packet → RING_BUFFER × List (Packet × Disposition)
  | rb, [] => (rb, [])
  | rb, p :: rest =>
    let rb1 := if needsTelemetry ctx p then (tryEnqueue rb (telemetryRecord p)).1 else rb
    let out := processHook ctx rb1 rest
    (out.1, (p, packetDisposition ctx p) :: out.2)

/-- How many packets of a hook invocation received a given
disposition. -/
def countDisp (out : List (Packet × Disposition)) (d : Disposition) : Nat :=
  (out.filter (fun q => q.2 = d)).length

/-! ## Filter Module Registry locking discipline (sections 3 and 5) -/

/-- Modelled from the spec: the primitive actions the registry and the
packet path perform on the shared filter-module list and its single
exclusion primitive — the `filterListLock` spin lock allocated in
DriverEntry (src/winptables/winptables.c, line 139).  The registry
implementation (filter_subroutines.c) is not in src. -/
inductive RegAction where
  | acquireLock
  | releaseLock
  | insertContext (adapter : Nat)
  | removeContext (adapter : Nat)
  | lookupContext (adapter : Nat)
deriving DecidableEq, Repr

/-- Modelled from the spec: `attach` inserts the new context into the
registry under the exclusion primitive (section 4.1). -/
def attachActions (adapter : Nat) : List RegAction :=
  [RegAction.acquireLock, RegAction.insertContext adapter, RegAction.releaseLock]

/-- Modelled from the spec: `detach` removes the context from the
registry under the exclusion primitive (section 4.1). -/
def detachActions (adapter : Nat) : List RegAction :=
  [RegAction.acquireLock, RegAction.removeContext adapter, RegAction.releaseLock]

/-- Modelled from the spec: a pipeline hook obtains the adapter's
context by a non-blocking lookup at hook entry; it takes no lock
(sections 3 and 5). -/
def hookEntryActions (adapter : Nat) : List RegAction :=
  [RegAction.lookupContext adapter]

/-- Registry mutations: inserting or removing a per-adapter context. -/
def isMutation : RegAction → Bool
  | RegAction.insertContext _ => true
  | RegAction.removeContext _ => true
  | _ => false

/-- Actions that can block on the exclusion primitive. -/
def isLockAcquire : RegAction → Bool
  | RegAction.acquireLock => true
  | _ => false

/-- Every mutation in the action sequence happens while the exclusion
primitive is held (tracking the lock through the sequence, starting
from `held`). -/
def mutationsLocked : Bool → List RegAction → Bool
  | _, [] => true
  | held, a :: rest =>
    (if isMutation a then held else true) &&
      mutationsLocked
        (if a = RegAction.acquireLock then true
         else if a = RegAction.releaseLock then false
         else held) rest

/-! ## Claim theorems -/

theorem countDisp_cons (p : Packet) (d : Disposition)
    (out : List (Packet × Disposition)) (d' : Disposition) :
    countDisp ((p, d) :: out) d' =
      (if d = d' then 1 else 0) + countDisp out d' := by
  by_cases h : d = d'
  · simp [countDisp, List.filter_cons, h]
    omega
  · simp [countDisp, List.filter_cons, h]

/-- C1: for every sequence of N packets delivered to one pipeline hook
invocation, exactly N resolutions occur — the hook emits exactly one
disposition per admitted packet, in order (so none is leaked and none
is resolved twice), and forwarded + dropped + passed-through = N. -/
theorem hook_conservation (ctx : Option FilterModuleContext) (rb : RING_BUFFER)
    (batch : List Packet) :
    (processHook ctx rb batch).2.map Prod.fst = batch ∧
    countDisp (processHook ctx rb batch).2 Disposition.forwarded +
      countDisp (processHook ctx rb batch).2 Disposition.dropped +
      countDisp (processHook ctx rb batch).2 Disposition.passedThrough =
      batch.length := by
  induction batch generalizing rb with
  | nil => simp [processHook, countDisp]
  | cons p rest ih =>
    obtain ⟨ih1, ih2⟩ :=
      ih (if needsTelemetry ctx p then (tryEnqueue rb (telemetryRecord p)).1 else rb)
    constructor
    · simp only [processHook, List.map_cons]
      rw [ih1]
    · simp only [processHook]
      rw [countDisp_cons, countDisp_cons, countDisp_cons, List.length_cons]
      cases hd : packetDisposition ctx p with
      | forwarded => simp only [reduceIte]; simp; omega
      | dropped => simp only [reduceIte]; simp; omega
      | passedThrough => simp only [reduceIte]; simp; omega

theorem scanRules_append_first (p : Packet) :
    ∀ (pre : List Rule) (r : Rule) (post : List Rule),
      (∀ r' ∈ pre, r'.expr.matchesPacket p = false) →
      r.expr.matchesPacket p = true →
      scanRules (pre ++ r :: post) p = some r.action := by
  intro pre
  induction pre with
  | nil =>
    intro r post _ hr
    simp [scanRules, hr]
  | cons a pre ih =>
    intro r post hpre hr
    have ha : a.expr.matchesPacket p = false := hpre a (by simp)
    simp only [List.cons_append, scanRules, ha]
    simp only [Bool.false_eq_true, if_false]
    exact ih r post (fun r' h => hpre r' (by simp [h])) hr

theorem scanRules_none (p : Packet) :
    ∀ (rules : List Rule),
      (∀ r ∈ rules, r.expr.matchesPacket p = false) →
      scanRules rules p = none := by
  intro rules
  induction rules with
  | nil => intro _; rfl
  | cons a l ih =>
    intro h
    have ha := h a (by simp)
    simp only [scanRules, ha]
    simp only [Bool.false_eq_true, if_false]
    exact ih (fun r hr => h r (by simp [hr]))

/-- C2: classification is a linear ordered scan applying the action of
the first rule whose predicate matches the packet, regardless of later
matching rules; if no rule matches, the configured default action is
applied — and the default configuration of that action is ACCEPT. -/
theorem classify_first_match (rs : RuleSet) (p : Packet) :
    (∀ (pre : List Rule) (r : Rule) (post : List Rule),
        rs.rules = pre ++ r :: post →
        (∀ r' ∈ pre, r'.expr.matchesPacket p = false) →
        r.expr.matchesPacket p = true →
        classify rs p = r.action) ∧
    ((∀ r ∈ rs.rules, r.expr.matchesPacket p = false) →
        classify rs p = rs.defaultAction) ∧
    (mkRuleSet rs.rules).defaultAction = Action.ACCEPT := by
  refine ⟨?_, ?_, rfl⟩
  · intro pre r post hsplit hpre hr
    unfold classify
    rw [hsplit, scanRules_append_first p pre r post hpre hr]
  · intro hnone
    unfold classify
    rw [scanRules_none p rs.rules hnone]

/-- A DROP rule on destination port 80. -/
def rule80drop : Rule :=
  { expr := { dstPort := some 80 }, action := Action.DROP }

/-- A MIRROR rule whose predicate overlaps the first rule entirely. -/
def rule80mirror : Rule :=
  { expr := { dstPort := some 80 }, action := Action.MIRROR }

/-- A rule set with overlapping predicates, default configuration. -/
def rulesetC2 : RuleSet := mkRuleSet [rule80drop, rule80mirror]

/-- An inbound packet to port 80. -/
def packet80 : Packet :=
  { direction := Direction.inbound, srcAddr := 10, dstAddr := 20
    srcPort := 1234, dstPort := 80, protocol := 6, adapter := 0
    wellFormed := true }

/-- An inbound packet to port 443 matching no rule of `rulesetC2`. -/
def packet443 : Packet :=
  { direction := Direction.inbound, srcAddr := 10, dstAddr := 20
    srcPort := 1234, dstPort := 443, protocol := 6, adapter := 0
    wellFormed := true }

/-- Witness for C2: both rules of `rulesetC2` match `packet80`, yet the
first (DROP) wins; `packet443` matches no rule and gets the configured
default ACCEPT. -/
theorem classify_first_match_witness :
    rule80drop.expr.matchesPacket packet80 = true ∧
    rule80mirror.expr.matchesPacket packet80 = true ∧
    classify rulesetC2 packet80 = Action.DROP ∧
    (∀ r ∈ rulesetC2.rules, r.expr.matchesPacket packet443 = false) ∧
    classify rulesetC2 packet443 = rulesetC2.defaultAction ∧
    rulesetC2.defaultAction = Action.ACCEPT :=
  ⟨by decide, by decide,
   (classify_first_match rulesetC2 packet80).1 [] rule80drop [rule80mirror]
     rfl (by simp) (by decide),
   by decide,
   (classify_first_match rulesetC2 packet443).2.1 (by decide),
   rfl⟩

/-- C3: across the transport's whole lifetime — at every state reached
from `InitRingBuffer` by a sequence of `tryEnqueue` and `drain`
operations and for every next operation — `writeOffset` and
`readOffset` are non-decreasing, `readOffset` never passes
`writeOffset`, and `writeOffset - readOffset` never exceeds the (fixed)
capacity. -/
theorem ring_monotone_bounded (e : Nat) (h2 : 2 ≤ e) (h32 : e < 32)
    (ops : List RingOp) (op : RingOp) :
    (runRingOps (InitRingBuffer e) ops).writeOffset ≤
      (applyRingOp (runRingOps (InitRingBuffer e) ops) op).writeOffset ∧
    (runRingOps (InitRingBuffer e) ops).readOffset ≤
      (applyRingOp (runRingOps (InitRingBuffer e) ops) op).readOffset ∧
    (runRingOps (InitRingBuffer e) ops).readOffset ≤
      (runRingOps (InitRingBuffer e) ops).writeOffset ∧
    (runRingOps (InitRingBuffer e) ops).writeOffset -
      (runRingOps (InitRingBuffer e) ops).readOffset ≤
      (runRingOps (InitRingBuffer e) ops).capacity ∧
    (applyRingOp (runRingOps (InitRingBuffer e) ops) op).readOffset ≤
      (applyRingOp (runRingOps (InitRingBuffer e) ops) op).writeOffset ∧
    (applyRingOp (runRingOps (InitRingBuffer e) ops) op).writeOffset -
      (applyRingOp (runRingOps (InitRingBuffer e) ops) op).readOffset ≤
      (applyRingOp (runRingOps (InitRingBuffer e) ops) op).capacity ∧
    (applyRingOp (runRingOps (InitRingBuffer e) ops) op).capacity =
      (runRingOps (InitRingBuffer e) ops).capacity := by
  have hwf : wfRing (runRingOps (InitRingBuffer e) ops) :=
    runRingOps_wf ops _ (InitRingBuffer_wf e h2 h32)
  have hwf' : wfRing (applyRingOp (runRingOps (InitRingBuffer e) ops) op) :=
    applyRingOp_wf _ _ hwf
  have hmono := applyRingOp_mono (runRingOps (InitRingBuffer e) ops) op
  exact ⟨hmono.1, hmono.2.1, hwf.2.2.1, hwf.2.2.2.1, hwf'.2.2.1,
    hwf'.2.2.2.1, hmono.2.2⟩

/-- A 10-byte telemetry record (4 length bytes, 1 type byte, 5 payload
bytes), as in the spec's capacity-64 overflow scenario. -/
def rec10 : TRecord := { rtype := 1, payload := [1, 2, 3, 4, 5] }

/-- Witness for C3 at capacity `2 ^ 6 = 64`, after an enqueue and a
drain, taking one more enqueue step. -/
theorem ring_monotone_bounded_witness :
    2 ≤ 6 ∧ 6 < 32 ∧
    ((runRingOps (InitRingBuffer 6) [RingOp.enq rec10, RingOp.deq]).writeOffset ≤
      (applyRingOp (runRingOps (InitRingBuffer 6) [RingOp.enq rec10, RingOp.deq])
        (RingOp.enq rec10)).writeOffset ∧
    (runRingOps (InitRingBuffer 6) [RingOp.enq rec10, RingOp.deq]).readOffset ≤
      (applyRingOp (runRingOps (InitRingBuffer 6) [RingOp.enq rec10, RingOp.deq])
        (RingOp.enq rec10)).readOffset ∧
    (runRingOps (InitRingBuffer 6) [RingOp.enq rec10, RingOp.deq]).readOffset ≤
      (runRingOps (InitRingBuffer 6) [RingOp.enq rec10, RingOp.deq]).writeOffset ∧
    (runRingOps (InitRingBuffer 6) [RingOp.enq rec10, RingOp.deq]).writeOffset -
      (runRingOps (InitRingBuffer 6) [RingOp.enq rec10, RingOp.deq]).readOffset ≤
      (runRingOps (InitRingBuffer 6) [RingOp.enq rec10, RingOp.deq]).capacity ∧
    (applyRingOp (runRingOps (InitRingBuffer 6) [RingOp.enq rec10, RingOp.deq])
        (RingOp.enq rec10)).readOffset ≤
      (applyRingOp (runRingOps (InitRingBuffer 6) [RingOp.enq rec10, RingOp.deq])
        (RingOp.enq rec10)).writeOffset ∧
    (applyRingOp (runRingOps (InitRingBuffer 6) [RingOp.enq rec10, RingOp.deq])
        (RingOp.enq rec10)).writeOffset -
      (applyRingOp (runRingOps (InitRingBuffer 6) [RingOp.enq rec10, RingOp.deq])
        (RingOp.enq rec10)).readOffset ≤
      (applyRingOp (runRingOps (InitRingBuffer 6) [RingOp.enq rec10, RingOp.deq])
        (RingOp.enq rec10)).capacity ∧
    (applyRingOp (runRingOps (InitRingBuffer 6) [RingOp.enq rec10, RingOp.deq])
        (RingOp.enq rec10)).capacity =
      (runRingOps (InitRingBuffer 6) [RingOp.enq rec10, RingOp.deq]).capacity) :=
  ⟨by decide, by decide,
   ring_monotone_bounded 6 (by decide) (by decide)
     [RingOp.enq rec10, RingOp.deq] (RingOp.enq rec10)⟩

/-- C8: the lifecycle machine never reaches removal without passing
through `Detaching`, except that a failed attach transitions directly
from `Attaching` to removed: whenever a run from `Attaching` ends
`Removed`, some step of its trace is either the removal of a
`Detaching` context or an `attachFail` taken in state `Attaching`. -/
theorem lifecycle_removal_via_detaching (evs : List LcEvent)
    (h : lcRun LifecycleState.Attaching evs = LifecycleState.Removed) :
    ∃ t ∈ lcTrace LifecycleState.Attaching evs,
      (t.1 = LifecycleState.Detaching ∧ t.2.1 = LcEvent.remove ∧
        t.2.2 = LifecycleState.Removed) ∨
      (t.1 = LifecycleState.Attaching ∧ t.2.1 = LcEvent.attachFail ∧
        t.2.2 = LifecycleState.Removed) := by
  have hstep : ∀ (s : LifecycleState) (e : LcEvent),
      s ≠ LifecycleState.Removed → lcStep s e = LifecycleState.Removed →
      (s = LifecycleState.Detaching ∧ e = LcEvent.remove) ∨
      (s = LifecycleState.Attaching ∧ e = LcEvent.attachFail) := by
    intro s e hs he
    cases s <;> cases e <;> simp_all [lcStep]
  have main : ∀ (evs : List LcEvent) (s : LifecycleState),
      s ≠ LifecycleState.Removed →
      lcRun s evs = LifecycleState.Removed →
      ∃ t ∈ lcTrace s evs,
        (t.1 = LifecycleState.Detaching ∧ t.2.1 = LcEvent.remove ∧
          t.2.2 = LifecycleState.Removed) ∨
        (t.1 = LifecycleState.Attaching ∧ t.2.1 = LcEvent.attachFail ∧
          t.2.2 = LifecycleState.Removed) := by
    intro evs
    induction evs with
    | nil =>
      intro s hs hr
      exact absurd hr hs
    | cons e es ih =>
      intro s hs hr
      by_cases hnext : lcStep s e = LifecycleState.Removed
      · refine ⟨(s, e, lcStep s e), by simp [lcTrace], ?_⟩
        rcases hstep s e hs hnext with ⟨h1, h2⟩ | ⟨h1, h2⟩
        · exact Or.inl ⟨h1, h2, hnext⟩
        · exact Or.inr ⟨h1, h2, hnext⟩
      · obtain ⟨t, ht, hprop⟩ := ih (lcStep s e) hnext hr
        exact ⟨t, by simp [lcTrace, ht], hprop⟩
  exact main evs LifecycleState.Attaching (by simp) h

/-- Witness for C8: a full attach – pause – resume – detach – remove
run reaches removal, so the trace contains a removal step from
`Detaching`. -/
theorem lifecycle_removal_via_detaching_witness :
    lcRun LifecycleState.Attaching
      [LcEvent.attachOk, LcEvent.pause, LcEvent.resume, LcEvent.detach,
       LcEvent.remove] = LifecycleState.Removed ∧
    ∃ t ∈ lcTrace LifecycleState.Attaching
      [LcEvent.attachOk, LcEvent.pause, LcEvent.resume, LcEvent.detach,
       LcEvent.remove],
      (t.1 = LifecycleState.Detaching ∧ t.2.1 = LcEvent.remove ∧
        t.2.2 = LifecycleState.Removed) ∨
      (t.1 = LifecycleState.Attaching ∧ t.2.1 = LcEvent.attachFail ∧
        t.2.2 = LifecycleState.Removed) :=
  ⟨by decide,
   lifecycle_removal_via_detaching
     [LcEvent.attachOk, LcEvent.pause, LcEvent.resume, LcEvent.detach,
      LcEvent.remove] (by decide)⟩

/-- C7: every mutation of the Filter Module Registry — the context
insert of `attach` and the context remove of `detach` — happens while
the single exclusion primitive is held, and the packet path's
hook-entry sequence never blocks on that primitive: it performs only a
lock-free context lookup. -/
theorem registry_lock_discipline (adapter : Nat) :
    mutationsLocked false (attachActions adapter) = true ∧
    mutationsLocked false (detachActions adapter) = true ∧
    (∀ a ∈ attachActions adapter, isMutation a = true →
      a = RegAction.insertContext adapter) ∧
    (∀ a ∈ hookEntryActions adapter, isLockAcquire a = false) ∧
    (∀ a ∈ hookEntryActions adapter, isMutation a = false) := by
  refine ⟨rfl, rfl, ?_, ?_, ?_⟩
  · intro a ha hm
    simp only [attachActions, List.mem_cons, List.mem_singleton] at ha
    rcases ha with rfl | rfl | rfl | h
    · simp [isMutation] at hm
    · rfl
    · simp [isMutation] at hm
    · simp at h
  · intro a ha
    simp only [hookEntryActions, List.mem_singleton] at ha
    subst ha
    rfl
  · intro a ha
    simp only [hookEntryActions, List.mem_singleton] at ha
    subst ha
    rfl

/-- Witness for C7 at a concrete adapter identity. -/
theorem registry_lock_discipline_witness :
    mutationsLocked false (attachActions 0) = true ∧
    mutationsLocked false (detachActions 0) = true ∧
    (∀ a ∈ attachActions 0, isMutation a = true →
      a = RegAction.insertContext 0) ∧
    (∀ a ∈ hookEntryActions 0, isLockAcquire a = false) ∧
    (∀ a ∈ hookEntryActions 0, isMutation a = false) :=
  registry_lock_discipline 0

/-- C6: whenever DriverEntry reaches the ring-buffer initialization
(version check passed, registration, device and symbolic link all
succeeded), it calls InitRingBuffer with size exponent 20, and that
exponent yields the fixed default capacity `1 <<< 20 = 1048576` bytes
(1 MiB). -/
theorem driverEntry_ring_1MiB (env : DriverEnv)
    (hv : NDIS_RUNTIME_VERSION_620 ≤ env.ndisGetVersion)
    (hr : NT_SUCCESS env.registerFilterDriverStatus = true)
    (hd : NT_SUCCESS env.createDeviceStatus = true)
    (hl : NT_SUCCESS env.createSymbolicLinkStatus = true) :
    (DriverEntry env).ringInitExponent = some 20 ∧
    (InitRingBuffer 20).capacity = 1048576 := by
  constructor
  · unfold DriverEntry
    rw [if_neg (by omega : ¬ env.ndisGetVersion < NDIS_RUNTIME_VERSION_620)]
    rw [if_neg (by simp [hr] : ¬ NT_SUCCESS env.registerFilterDriverStatus = false)]
    rw [if_neg (by simp [hd] : ¬ NT_SUCCESS env.createDeviceStatus = false)]
    rw [if_neg (by simp [hl] : ¬ NT_SUCCESS env.createSymbolicLinkStatus = false)]
    by_cases hb : NT_SUCCESS env.initRingBufferStatus = false
    · rw [if_pos hb]
    · rw [if_neg hb]
  · show 2 ^ 20 = 1048576
    norm_num

/-- Witness for C6 at an environment reporting exactly NDIS 6.20 with
all external calls succeeding. -/
theorem driverEntry_ring_1MiB_witness :
    NDIS_RUNTIME_VERSION_620 ≤ NDIS_RUNTIME_VERSION_620 ∧
    NT_SUCCESS STATUS_SUCCESS = true ∧
    ((DriverEntry
      { ndisGetVersion := NDIS_RUNTIME_VERSION_620
        registerFilterDriverStatus := STATUS_SUCCESS
        createDeviceStatus := STATUS_SUCCESS
        createSymbolicLinkStatus := STATUS_SUCCESS
        initRingBufferStatus := STATUS_SUCCESS }).ringInitExponent = some 20 ∧
     (InitRingBuffer 20).capacity = 1048576) :=
  ⟨Nat.le_refl _, by decide,
   driverEntry_ring_1MiB
     { ndisGetVersion := NDIS_RUNTIME_VERSION_620
       registerFilterDriverStatus := STATUS_SUCCESS
       createDeviceStatus := STATUS_SUCCESS
       createSymbolicLinkStatus := STATUS_SUCCESS
       initRingBufferStatus := STATUS_SUCCESS }
     (Nat.le_refl _) (by decide) (by decide) (by decide)⟩

/-- C9: if NdisGetVersion() reports a version strictly below
NDIS_RUNTIME_VERSION_620, DriverEntry performs no filter-driver
registration, no device creation and no ring-buffer initialization and
returns NDIS_STATUS_UNSUPPORTED_REVISION; otherwise the global
`ndisVersion` is capped to exactly NDIS_RUNTIME_VERSION_620 even when
the reported version is higher. -/
theorem driverEntry_version_gate (env : DriverEnv) :
    (env.ndisGetVersion < NDIS_RUNTIME_VERSION_620 →
      (DriverEntry env).filterRegistered = false ∧
      (DriverEntry env).deviceCreated = false ∧
      (DriverEntry env).symbolicLinkCreated = false ∧
      (DriverEntry env).ringInitExponent = none ∧
      (DriverEntry env).ringBufferInitialized = false ∧
      (DriverEntry env).status = NDIS_STATUS_UNSUPPORTED_REVISION ∧
      (DriverEntry env).ndisVersion = env.ndisGetVersion) ∧
    (NDIS_RUNTIME_VERSION_620 ≤ env.ndisGetVersion →
      (DriverEntry env).ndisVersion = NDIS_RUNTIME_VERSION_620) := by
  constructor
  · intro hv
    unfold DriverEntry
    rw [if_pos hv]
    exact ⟨rfl, rfl, rfl, rfl, rfl, rfl, rfl⟩
  · intro hv
    unfold DriverEntry
    rw [if_neg (by omega : ¬ env.ndisGetVersion < NDIS_RUNTIME_VERSION_620)]
    by_cases hr : NT_SUCCESS env.registerFilterDriverStatus = false
    · rw [if_pos hr]
    · rw [if_neg hr]
      by_cases hd : NT_SUCCESS env.createDeviceStatus = false
      · rw [if_pos hd]
      · rw [if_neg hd]
        by_cases hl : NT_SUCCESS env.createSymbolicLinkStatus = false
        · rw [if_pos hl]
        · rw [if_neg hl]
          by_cases hb : NT_SUCCESS env.initRingBufferStatus = false
          · rw [if_pos hb]
          · rw [if_neg hb]

/-- Witness for C9: a reported version of NDIS 6.0 is rejected with
UNSUPPORTED_REVISION and nothing is registered or created; a reported
version of NDIS 6.30 (higher than 6.20) still pins the global
`ndisVersion` to exactly NDIS_RUNTIME_VERSION_620. -/
theorem driverEntry_version_gate_witness :
    ((6 <<< 16) < NDIS_RUNTIME_VERSION_620 ∧
     (DriverEntry
       { ndisGetVersion := 6 <<< 16
         registerFilterDriverStatus := STATUS_SUCCESS
         createDeviceStatus := STATUS_SUCCESS
         createSymbolicLinkStatus := STATUS_SUCCESS
         initRingBufferStatus := STATUS_SUCCESS }).filterRegistered = false ∧
     (DriverEntry
       { ndisGetVersion := 6 <<< 16
         registerFilterDriverStatus := STATUS_SUCCESS
         createDeviceStatus := STATUS_SUCCESS
         createSymbolicLinkStatus := STATUS_SUCCESS
         initRingBufferStatus := STATUS_SUCCESS }).status =
       NDIS_STATUS_UNSUPPORTED_REVISION) ∧
    (NDIS_RUNTIME_VERSION_620 ≤ ((6 <<< 16) ||| 30) ∧
     (DriverEntry
       { ndisGetVersion := (6 <<< 16) ||| 30
         registerFilterDriverStatus := STATUS_SUCCESS
         createDeviceStatus := STATUS_SUCCESS
         createSymbolicLinkStatus := STATUS_SUCCESS
         initRingBufferStatus := STATUS_SUCCESS }).ndisVersion =
       NDIS_RUNTIME_VERSION_620) := by
  constructor
  · refine ⟨by decide, ?_, ?_⟩
    · exact ((driverEntry_version_gate _).1 (by decide)).1
    · exact ((driverEntry_version_gate _).1 (by decide)).2.2.2.2.2.1
  · exact ⟨by decide, (driverEntry_version_gate _).2 (by decide)⟩

/-- C10 (code bug): when InitRingBuffer fails after registration,
device creation and symbolic-link creation all succeeded, DriverEntry
frees the spin lock, deregisters the filter driver and deletes the
device, but never calls IoDeleteSymbolicLink
(src/winptables/winptables.c, lines 190-196) — the symbolic link
survives the failed DriverEntry, so not every acquired resource is
released. -/
theorem driverEntry_ringInitFailure_leaks_symlink :
    NT_SUCCESS (DriverEntry
      { ndisGetVersion := NDIS_RUNTIME_VERSION_620
        registerFilterDriverStatus := STATUS_SUCCESS
        createDeviceStatus := STATUS_SUCCESS
        createSymbolicLinkStatus := STATUS_SUCCESS
        initRingBufferStatus := STATUS_INSUFFICIENT_RESOURCES }).status = false ∧
    (DriverEntry
      { ndisGetVersion := NDIS_RUNTIME_VERSION_620
        registerFilterDriverStatus := STATUS_SUCCESS
        createDeviceStatus := STATUS_SUCCESS
        createSymbolicLinkStatus := STATUS_SUCCESS
        initRingBufferStatus := STATUS_INSUFFICIENT_RESOURCES }).spinLockAllocated
      = false ∧
    (DriverEntry
      { ndisGetVersion := NDIS_RUNTIME_VERSION_620
        registerFilterDriverStatus := STATUS_SUCCESS
        createDeviceStatus := STATUS_SUCCESS
        createSymbolicLinkStatus := STATUS_SUCCESS
        initRingBufferStatus := STATUS_INSUFFICIENT_RESOURCES }).filterRegistered
      = false ∧
    (DriverEntry
      { ndisGetVersion := NDIS_RUNTIME_VERSION_620
        registerFilterDriverStatus := STATUS_SUCCESS
        createDeviceStatus := STATUS_SUCCESS
        createSymbolicLinkStatus := STATUS_SUCCESS
        initRingBufferStatus := STATUS_INSUFFICIENT_RESOURCES }).deviceCreated
      = false ∧
    (DriverEntry
      { ndisGetVersion := NDIS_RUNTIME_VERSION_620
        registerFilterDriverStatus := STATUS_SUCCESS
        createDeviceStatus := STATUS_SUCCESS
        createSymbolicLinkStatus := STATUS_SUCCESS
        initRingBufferStatus := STATUS_INSUFFICIENT_RESOURCES }).symbolicLinkCreated
      = true := by
  decide

/-- Reading back a just-written record returns its encoded bytes. -/
theorem record_writeBytes_roundtrip (data : Nat → Nat) (p : Nat) (rec : TRecord) :
    readBytes (writeBytes data p (encodeRecord rec)) p (recordSize rec) =
      encodeRecord rec := by
  have h := readBytes_getD (writeBytes data p (encodeRecord rec)) p (encodeRecord rec)
    (fun i hi => writeBytes_inside _ _ _ i hi)
  rwa [encodeRecord_length] at h

/-- After a wrapped write, the padded tail's first four bytes read as
the zero-length wrap marker (when a length field fits there). -/
theorem padded_marker (rb : RING_BUFFER) (rec : TRecord)
    (hSP : recordSize rec ≤ rb.writeOffset % rb.capacity)
    (hto : 4 ≤ rb.capacity - rb.writeOffset % rb.capacity) :
    readLe32
      (writeBytes
        (writeBytes rb.data (rb.writeOffset % rb.capacity)
          (List.replicate (rb.capacity - rb.writeOffset % rb.capacity) 0))
        0 (encodeRecord rec)) (rb.writeOffset % rb.capacity) = 0 := by
  have hbyte : ∀ j, j < 4 →
      writeBytes
        (writeBytes rb.data (rb.writeOffset % rb.capacity)
          (List.replicate (rb.capacity - rb.writeOffset % rb.capacity) 0))
        0 (encodeRecord rec) (rb.writeOffset % rb.capacity + j) = 0 := by
    intro j hj
    rw [writeBytes_outside _ _ _ _ (Or.inr (by rw [encodeRecord_length]; omega))]
    have h := writeBytes_inside
      (List.replicate (rb.capacity - rb.writeOffset % rb.capacity) 0)
      rb.data (rb.writeOffset % rb.capacity) j
      (by rw [List.length_replicate]; omega)
    rw [h, getD_replicate _ _ _ j (by omega)]
  have e0 := hbyte 0 (by omega)
  have e1 := hbyte 1 (by omega)
  have e2 := hbyte 2 (by omega)
  have e3 := hbyte 3 (by omega)
  simp only [Nat.add_zero] at e0
  simp only [readLe32, e0, e1, e2, e3]

/-- One drain step on a buffer whose next content is a record stored in
place at the read position returns that record and advances
`readOffset` past it. -/
theorem drainOne_inplace (B : RING_BUFFER) (rec : TRecord)
    (hne : B.readOffset ≠ B.writeOffset)
    (hskip : ¬(B.capacity - B.readOffset % B.capacity < 4 ∨
      readLe32 B.data (B.readOffset % B.capacity) = 0))
    (hw : B.writeOffset = B.readOffset + 5 +
      readLe32 B.data (B.readOffset % B.capacity))
    (hty : B.data (B.readOffset % B.capacity + 4) = rec.rtype)
    (hpl : readBytes B.data (B.readOffset % B.capacity + 5)
      (readLe32 B.data (B.readOffset % B.capacity)) = rec.payload) :
    (drainOne B).2 = some rec ∧ ((drainOne B).1).readOffset = B.writeOffset := by
  have hds : drainSkip B = B.readOffset := by
    unfold drainSkip
    rw [if_neg hskip]
  unfold drainOne
  rw [if_neg hne]
  constructor
  · show some ({ rtype := B.data (drainSkip B % B.capacity + 4)
                 payload := readBytes B.data (drainSkip B % B.capacity + 5)
                   (readLe32 B.data (drainSkip B % B.capacity)) } : TRecord) =
      some rec
    rw [hds, hty, hpl]
  · show drainSkip B + 5 + readLe32 B.data (drainSkip B % B.capacity) = B.writeOffset
    rw [hds, hw]

/-- One drain step on a buffer whose read position holds a wrap skip
(short tail or zero marker) followed by a record at physical offset 0
returns that record and advances `readOffset` past it. -/
theorem drainOne_after_wrap (B : RING_BUFFER) (rec : TRecord)
    (hne : B.readOffset ≠ B.writeOffset)
    (hcap0 : 0 < B.capacity)
    (hskip : B.capacity - B.readOffset % B.capacity < 4 ∨
      readLe32 B.data (B.readOffset % B.capacity) = 0)
    (hw : B.writeOffset = B.readOffset + (B.capacity - B.readOffset % B.capacity)
      + 5 + readLe32 B.data 0)
    (hty : B.data 4 = rec.rtype)
    (hpl : readBytes B.data 5 (readLe32 B.data 0) = rec.payload) :
    (drainOne B).2 = some rec ∧ ((drainOne B).1).readOffset = B.writeOffset := by
  have hds : drainSkip B =
      B.readOffset + (B.capacity - B.readOffset % B.capacity) := by
    unfold drainSkip
    rw [if_pos hskip]
  have hz : drainSkip B % B.capacity = 0 := by
    rw [hds]
    exact add_toEnd_mod _ _ hcap0
  unfold drainOne
  rw [if_neg hne]
  constructor
  · show some ({ rtype := B.data (drainSkip B % B.capacity + 4)
                 payload := readBytes B.data (drainSkip B % B.capacity + 5)
                   (readLe32 B.data (drainSkip B % B.capacity)) } : TRecord) =
      some rec
    rw [hz]
    simp only [Nat.zero_add]
    rw [hty, hpl]
  · show drainSkip B + 5 + readLe32 B.data (drainSkip B % B.capacity) = B.writeOffset
    rw [hz, hds, hw]

/-- C4: a successfully enqueued record is never stored split across the
buffer's physical end.  If it fits before the end, it is stored
contiguously at the write position; if its encoded form would cross the
end, the producer leaves a zero-length wrap marker at the old write
position (whenever the 4 marker bytes fit there) and stores the full
record contiguously from physical offset 0 — and a reader positioned at
this record (wrap check included) returns exactly the record and stops
right after it. -/
theorem wrap_never_splits (rb : RING_BUFFER) (rec : TRecord) (hwf : wfRing rb)
    (hne : 0 < rec.payload.length) (hty : rec.rtype < 256)
    (hsucc : (tryEnqueue rb rec).2 = true) :
    (recordSize rec ≤ rb.capacity - rb.writeOffset % rb.capacity →
      rb.writeOffset % rb.capacity + recordSize rec ≤ rb.capacity ∧
      readBytes ((tryEnqueue rb rec).1).data (rb.writeOffset % rb.capacity)
        (recordSize rec) = encodeRecord rec) ∧
    (rb.capacity - rb.writeOffset % rb.capacity < recordSize rec →
      recordSize rec ≤ rb.capacity ∧
      (4 ≤ rb.capacity - rb.writeOffset % rb.capacity →
        readLe32 ((tryEnqueue rb rec).1).data (rb.writeOffset % rb.capacity) = 0) ∧
      readBytes ((tryEnqueue rb rec).1).data 0 (recordSize rec) =
        encodeRecord rec) ∧
    (rb.readOffset = rb.writeOffset →
      (drainOne ((tryEnqueue rb rec).1)).2 = some rec ∧
      ((drainOne ((tryEnqueue rb rec).1)).1).readOffset =
        ((tryEnqueue rb rec).1).writeOffset) := by
  obtain ⟨hc4, hc32, hrw, hdiff, hval⟩ := hwf
  have hcap0 : 0 < rb.capacity := by omega
  have hm : rb.writeOffset % rb.capacity < rb.capacity := Nat.mod_lt _ hcap0
  have hS : recordSize rec = 5 + rec.payload.length := rfl
  have h0 : ¬ rec.payload.length = 0 := by omega
  have hov : ¬ freeSpace rb < neededSpace rb rec := by
    intro hcon
    unfold tryEnqueue at hsucc
    rw [if_neg h0, if_pos hcon] at hsucc
    simp at hsucc
  have hovA : neededSpace rb rec ≤
      rb.capacity - (rb.writeOffset - rb.readOffset) := by
    rw [freeSpace, usedSpace] at hov
    omega
  by_cases hwrap : rb.capacity - rb.writeOffset % rb.capacity < recordSize rec
  · -- the record would cross the physical end: padded wrap
    have hovB := hovA
    rw [neededSpace, if_pos hwrap] at hovB
    have hlt32 : rec.payload.length < 2 ^ 32 := by omega
    have hrb1 : (tryEnqueue rb rec).1 = { rb with
        data := writeBytes
          (writeBytes rb.data (rb.writeOffset % rb.capacity)
            (List.replicate (rb.capacity - rb.writeOffset % rb.capacity) 0))
          0 (encodeRecord rec)
        writeOffset := rb.writeOffset +
          ((rb.capacity - rb.writeOffset % rb.capacity) + recordSize rec) } := by
      unfold tryEnqueue
      rw [if_neg h0, if_neg hov, if_pos hwrap]
    have hlenD : readLe32
        (writeBytes
          (writeBytes rb.data (rb.writeOffset % rb.capacity)
            (List.replicate (rb.capacity - rb.writeOffset % rb.capacity) 0))
          0 (encodeRecord rec)) 0 = rec.payload.length :=
      readLe32_writeBytes_encode _ 0 rec hlt32
    refine ⟨?_, ?_, ?_⟩
    · intro hfit
      exact absurd hfit (by omega)
    · intro _
      refine ⟨by omega, ?_, ?_⟩
      · intro hto4
        rw [hrb1]
        exact padded_marker rb rec (by omega) hto4
      · rw [hrb1]
        exact record_writeBytes_roundtrip _ 0 rec
    · intro hempty
      rw [hrb1]
      refine drainOne_after_wrap _ rec ?_ hcap0 ?_ ?_ ?_ ?_
      · show rb.readOffset ≠ rb.writeOffset +
          ((rb.capacity - rb.writeOffset % rb.capacity) + recordSize rec)
        omega
      · show rb.capacity - rb.readOffset % rb.capacity < 4 ∨
          readLe32
            (writeBytes
              (writeBytes rb.data (rb.writeOffset % rb.capacity)
                (List.replicate (rb.capacity - rb.writeOffset % rb.capacity) 0))
              0 (encodeRecord rec)) (rb.readOffset % rb.capacity) = 0
        rw [hempty]
        by_cases hto4 : 4 ≤ rb.capacity - rb.writeOffset % rb.capacity
        · exact Or.inr (padded_marker rb rec (by omega) hto4)
        · exact Or.inl (by omega)
      · show rb.writeOffset +
            ((rb.capacity - rb.writeOffset % rb.capacity) + recordSize rec) =
          rb.readOffset + (rb.capacity - rb.readOffset % rb.capacity) + 5 +
            readLe32
              (writeBytes
                (writeBytes rb.data (rb.writeOffset % rb.capacity)
                  (List.replicate (rb.capacity - rb.writeOffset % rb.capacity) 0))
                0 (encodeRecord rec)) 0
        rw [hempty, hlenD]
        omega
      · show writeBytes
            (writeBytes rb.data (rb.writeOffset % rb.capacity)
              (List.replicate (rb.capacity - rb.writeOffset % rb.capacity) 0))
            0 (encodeRecord rec) 4 = rec.rtype
        have h4 := typeByte_writeBytes_encode
          (writeBytes rb.data (rb.writeOffset % rb.capacity)
            (List.replicate (rb.capacity - rb.writeOffset % rb.capacity) 0))
          0 rec
        simp only [Nat.zero_add] at h4
        rw [Nat.mod_eq_of_lt hty] at h4
        exact h4
      · show readBytes
            (writeBytes
              (writeBytes rb.data (rb.writeOffset % rb.capacity)
                (List.replicate (rb.capacity - rb.writeOffset % rb.capacity) 0))
              0 (encodeRecord rec)) 5
            (readLe32
              (writeBytes
                (writeBytes rb.data (rb.writeOffset % rb.capacity)
                  (List.replicate (rb.capacity - rb.writeOffset % rb.capacity) 0))
                0 (encodeRecord rec)) 0) = rec.payload
        rw [hlenD]
        have hp := payload_writeBytes_encode
          (writeBytes rb.data (rb.writeOffset % rb.capacity)
            (List.replicate (rb.capacity - rb.writeOffset % rb.capacity) 0))
          0 rec
        simpa using hp
  · -- the record fits before the physical end: stored in place
    have hovC := hovA
    rw [neededSpace, if_neg hwrap] at hovC
    have hfitT : recordSize rec ≤ rb.capacity - rb.writeOffset % rb.capacity :=
      Nat.not_lt.mp hwrap
    have hlt32 : rec.payload.length < 2 ^ 32 := by omega
    have hrb1 : (tryEnqueue rb rec).1 = { rb with
        data := writeBytes rb.data (rb.writeOffset % rb.capacity) (encodeRecord rec)
        writeOffset := rb.writeOffset + recordSize rec } := by
      unfold tryEnqueue
      rw [if_neg h0, if_neg hov, if_neg hwrap]
    have hlenP : readLe32
        (writeBytes rb.data (rb.writeOffset % rb.capacity) (encodeRecord rec))
        (rb.writeOffset % rb.capacity) = rec.payload.length :=
      readLe32_writeBytes_encode _ _ rec hlt32
    refine ⟨?_, ?_, ?_⟩
    · intro _
      refine ⟨by omega, ?_⟩
      rw [hrb1]
      exact record_writeBytes_roundtrip _ _ rec
    · intro hcon
      exact absurd hcon (by omega)
    · intro hempty
      rw [hrb1]
      refine drainOne_inplace _ rec ?_ ?_ ?_ ?_ ?_
      · show rb.readOffset ≠ rb.writeOffset + recordSize rec
        omega
      · show ¬(rb.capacity - rb.readOffset % rb.capacity < 4 ∨
          readLe32
            (writeBytes rb.data (rb.writeOffset % rb.capacity) (encodeRecord rec))
            (rb.readOffset % rb.capacity) = 0)
        rw [hempty]
        push_neg
        refine ⟨by omega, ?_⟩
        rw [hlenP]
        omega
      · show rb.writeOffset + recordSize rec = rb.readOffset + 5 +
          readLe32
            (writeBytes rb.data (rb.writeOffset % rb.capacity) (encodeRecord rec))
            (rb.readOffset % rb.capacity)
        rw [hempty, hlenP]
        omega
      · show writeBytes rb.data (rb.writeOffset % rb.capacity) (encodeRecord rec)
            (rb.readOffset % rb.capacity + 4) = rec.rtype
        rw [hempty]
        have h4 := typeByte_writeBytes_encode rb.data
          (rb.writeOffset % rb.capacity) rec
        rw [Nat.mod_eq_of_lt hty] at h4
        exact h4
      · show readBytes
            (writeBytes rb.data (rb.writeOffset % rb.capacity) (encodeRecord rec))
            (rb.readOffset % rb.capacity + 5)
            (readLe32
              (writeBytes rb.data (rb.writeOffset % rb.capacity) (encodeRecord rec))
              (rb.readOffset % rb.capacity)) = rec.payload
        rw [hempty, hlenP]
        exact payload_writeBytes_encode rb.data (rb.writeOffset % rb.capacity) rec

/-- A 6-byte record (payload of one byte). -/
def rec6a : TRecord := { rtype := 2, payload := [9] }

/-- A reachable capacity-16 ring state with both offsets at 12: the
next 6-byte record would cross the physical end 4 bytes ahead. -/
def rbWrap : RING_BUFFER :=
  runRingOps (InitRingBuffer 4)
    [RingOp.enq rec6a, RingOp.deq, RingOp.enq rec6a, RingOp.deq]

/-- Witness for C4 at a concrete wrapping enqueue: the reader gets the
whole record back and stops exactly at the new write offset. -/
theorem wrap_never_splits_witness :
    wfRing rbWrap ∧ 0 < rec6a.payload.length ∧ rec6a.rtype < 256 ∧
    (tryEnqueue rbWrap rec6a).2 = true ∧
    rbWrap.readOffset = rbWrap.writeOffset ∧
    ((drainOne ((tryEnqueue rbWrap rec6a).1)).2 = some rec6a ∧
     ((drainOne ((tryEnqueue rbWrap rec6a).1)).1).readOffset =
       ((tryEnqueue rbWrap rec6a).1).writeOffset) :=
  ⟨by decide, by decide, by decide, by decide, by decide,
   (wrap_never_splits rbWrap rec6a (by decide) (by decide) (by decide)
     (by decide)).2.2 (by decide)⟩

/-- Enqueue a list of records in order, collecting each call's boolean
result. -/
def enqueueResults : RING_BUFFER → List TRecord → RING_BUFFER × List Bool
  | rb, [] => (rb, [])
  | rb, r :: rs =>
    ((enqueueResults ((tryEnqueue rb r).1) rs).1,
     (tryEnqueue rb r).2 :: (enqueueResults ((tryEnqueue rb r).1) rs).2)

/-- C5: a `tryEnqueue` whose (proper, nonempty) record does not fit in
the remaining ring space returns `false`, discards the newest record,
increments the `RingOverflow` counter and leaves `writeOffset`,
`readOffset` and the stored bytes untouched; a hook invocation's packet
dispositions do not depend on the ring state at all, so the packet's
disposition is unaffected.  In particular, with capacity 64 and ten
10-byte records enqueued without a drain, some `tryEnqueue` returns
`false`, `RingOverflow` increases, and the offsets stay uncorrupted. -/
theorem tryEnqueue_overflow (rb : RING_BUFFER) (rec : TRecord)
    (hne : 0 < rec.payload.length)
    (hfull : freeSpace rb < neededSpace rb rec) :
    tryEnqueue rb rec =
      ({ rb with ringOverflowCount := rb.ringOverflowCount + 1 }, false) ∧
    (∀ (ctx : Option FilterModuleContext) (batch : List Packet)
       (rb1 rb2 : RING_BUFFER),
      (processHook ctx rb1 batch).2.map Prod.snd =
        (processHook ctx rb2 batch).2.map Prod.snd) ∧
    (false ∈ (enqueueResults (InitRingBuffer 6) (List.replicate 10 rec10)).2 ∧
     1 ≤ ((enqueueResults (InitRingBuffer 6) (List.replicate 10 rec10)).1).ringOverflowCount ∧
     ((enqueueResults (InitRingBuffer 6) (List.replicate 10 rec10)).1).readOffset ≤
       ((enqueueResults (InitRingBuffer 6) (List.replicate 10 rec10)).1).writeOffset ∧
     ((enqueueResults (InitRingBuffer 6) (List.replicate 10 rec10)).1).writeOffset -
       ((enqueueResults (InitRingBuffer 6) (List.replicate 10 rec10)).1).readOffset ≤ 64) := by
  refine ⟨?_, ?_, by decide⟩
  · unfold tryEnqueue
    rw [if_neg (by omega : ¬ rec.payload.length = 0), if_pos hfull]
  · intro ctx batch
    induction batch with
    | nil => intro rb1 rb2; rfl
    | cons p rest ih =>
      intro rb1 rb2
      simp only [processHook, List.map_cons]
      rw [ih]

/-- A reachable capacity-64 ring state holding six 10-byte records
(60 bytes used): the next 10-byte record does not fit. -/
def rbFull : RING_BUFFER :=
  runRingOps (InitRingBuffer 6) (List.replicate 6 (RingOp.enq rec10))

/-- Witness for C5 at a concrete full ring. -/
theorem tryEnqueue_overflow_witness :
    0 < rec10.payload.length ∧
    freeSpace rbFull < neededSpace rbFull rec10 ∧
    tryEnqueue rbFull rec10 =
      ({ rbFull with ringOverflowCount := rbFull.ringOverflowCount + 1 }, false) :=
  ⟨by decide, by decide,
   (tryEnqueue_overflow rbFull rec10 (by decide) (by decide)).1⟩

end Winptables
